import Mathlib

/-!
Verification of DBExportHub's Excel export core.

Shallow embedding of `src/backend/app/api/exports/excel_utils.py`:

* `create_filename` — the NameComposer: derives the export filename from the
  search filter parameters and an optional fallback sample row.
* `write_excel_headers` / `write_data_to_excel` — the streaming export
  writer: header writing and the batched cursor-to-worksheet copy loop with
  cooperative cancellation checks.

Python strings are modelled through their character lists, Python values
written to cells through `PyVal` (with Python truthiness), exceptions
through `PyExc` (class name + message), and the worksheet through an event
trace recording every `write` / `set_row` call together with the gate
queries and fetches the writer performs.
-/

namespace DBExportHub

/-! ## Python string primitives used by `create_filename` -/

/-- Python whitespace characters stripped by `str.strip()` (ASCII subset). -/
def pyWS (c : Char) : Bool :=
  c == ' ' || c == '\t' || c == '\n' || c == '\r' || c == '\x0b' || c == '\x0c'

/-- `s.strip()` — remove leading and trailing whitespace. -/
def pyStrip (s : String) : String :=
  ⟨List.reverse (List.dropWhile pyWS (List.reverse (List.dropWhile pyWS s.data)))⟩

/-- `s[-2:]` — the last two characters (the whole string when shorter). -/
def pyLastTwo (s : String) : String :=
  ⟨s.data.drop (s.data.length - 2)⟩

/-- `s[2:4]` — characters at indices 2 and 3 (clamped at the end). -/
def pySlice24 (s : String) : String :=
  ⟨(s.data.drop 2).take 2⟩

/-- `s.replace(" ", "")` — delete every space character. -/
def pyRemoveSpaces (s : String) : String :=
  ⟨s.data.filter (fun c => !(c == ' '))⟩

/-- `s.replace(" ", "_")` — turn every space into an underscore. -/
def pyUnderscore (s : String) : String :=
  ⟨s.data.map (fun c => if c == ' ' then '_' else c)⟩

/-- `s.split(",")[0]` — the prefix of `s` before the first comma. -/
def pyFirstCommaTok (s : String) : String :=
  ⟨s.data.takeWhile (fun c => !(c == ','))⟩

/-- `s[:n]` — the first `n` characters. -/
def pyTake (n : Nat) (s : String) : String :=
  ⟨s.data.take n⟩

/-- Python truthiness of a string: non-empty. -/
def strTruthy (s : String) : Bool := !(s == "")

/-! ## `create_filename` (NameComposer) -/

/-- The filter parameters consumed by `create_filename`
(`params.fromMonth`, …, `params.port`), each already passed through
`str()` where the source does so. -/
structure ExportParams where
  fromMonth : String
  toMonth : String
  hs : String
  prod : String
  iec : String
  expCmp : String
  forcount : String
  forname : String
  port : String
deriving DecidableEq, Repr

/-- Lines 24–28: the `month_names` dict. -/
def monthNames : List (String × String) :=
  [("01", "JAN"), ("02", "FEB"), ("03", "MAR"), ("04", "APR"),
   ("05", "MAY"), ("06", "JUN"), ("07", "JUL"), ("08", "AUG"),
   ("09", "SEP"), ("10", "OCT"), ("11", "NOV"), ("12", "DEC")]

/-- The dict lookup with default, `month_names.get(m, "")`. -/
def monthNamesGet (m : String) : String := (monthNames.lookup m).getD ""

/-- `month_names.get(s[-2:], "") + s[2:4]` — the `MON+YY` rendering of one
year-month value (lines 31–38 of the source). -/
def renderYM (s : String) : String :=
  monthNamesGet (pyLastTwo s) ++ pySlice24 s

/-- Lines 40–44: the month-range label — the single rendering when both ends
render identically, otherwise the two renderings joined by `-`. -/
def monthYear (fromM toM : String) : String :=
  let mon1 := renderYM fromM
  let mon2 := renderYM toM
  if mon1 = mon2 then mon1 else mon1 ++ "-" ++ mon2

/-- Lines 49–52: contribution of the HS field — the first comma-separated
token after stripping and removing spaces, appended with no separator. -/
def hsPart (hs : String) : String :=
  if strTruthy hs && !(hs == "%") then
    pyFirstCommaTok (pyRemoveSpaces (pyStrip hs))
  else ""

/-- Lines 54–76: contribution of each later field — `"_" + field` with
internal spaces replaced by underscores, when non-empty and not `"%"`. -/
def fieldPart (v : String) : String :=
  if strTruthy v && !(v == "%") then "_" ++ pyUnderscore v else ""

/-- Lines 78–80: drop one leading underscore from a non-empty label. -/
def stripLeadUnderscore (s : String) : String :=
  if strTruthy s && s.data.headD ' ' == '_' then ⟨s.data.tail⟩ else s

/-- Lines 46–80: the accumulated `filename1` parameter label. -/
def paramLabel (p : ExportParams) : String :=
  stripLeadUnderscore
    (hsPart p.hs ++ fieldPart p.prod ++ fieldPart p.iec ++ fieldPart p.expCmp ++
      fieldPart p.forcount ++ fieldPart p.forname ++ fieldPart p.port)

/-- Lines 83–89: the fallback label used when no parameter contributed —
first 8 characters of the stripped first field of `first_row_hs` when that
row is present with a truthy first field, else the literal `"Export"`. -/
def fallbackLabel (first_row_hs : List String) : String :=
  match first_row_hs with
  | [] => "Export"
  | f :: _ =>
    if strTruthy f then
      let hs_code := pyStrip f
      if hs_code.data.length > 8 then pyTake 8 hs_code else hs_code
    else "Export"

/-- Lines 17–93: `create_filename(params, first_row_hs)`. The function is
total — every operation it performs (slicing, `dict.get` with a default,
concatenation) is total in Python, so no exception is ever raised. -/
def create_filename (p : ExportParams) (first_row_hs : List String) : String :=
  let month_year := monthYear p.fromMonth p.toMonth
  let filename1 := paramLabel p
  let filename1 := if strTruthy filename1 then filename1 else fallbackLabel first_row_hs
  filename1 ++ "_" ++ month_year ++ "EXP.xlsx"

/-- Whether a string contains the character `-`. -/
def hasDash (s : String) : Bool := s.data.contains '-'

/-- A well-formed `YearMonth` value: a 6-digit string whose last two digits
name a month `01`–`12` (§3 of the design: "a 6-digit value `YYYYMM`"). -/
def ValidYM (s : String) : Bool :=
  s.data.length == 6 && s.data.all Char.isDigit && !(monthNamesGet (pyLastTwo s) == "")

/-- All seven name-contributing filter fields empty or the `%` wildcard. -/
def emptyOrWC (v : String) : Bool := v == "" || v == "%"

def allFieldsEmpty (p : ExportParams) : Bool :=
  emptyOrWC p.hs && emptyOrWC p.prod && emptyOrWC p.iec && emptyOrWC p.expCmp &&
    emptyOrWC p.forcount && emptyOrWC p.forname && emptyOrWC p.port

/-! ## Streaming export writer: values, exceptions, styles, worksheet events

`write_data_to_excel(worksheet, cursor, data_format, date_format, operation_id,
total_count)` is embedded as a function of:

* a cancellation gate `gate : Nat → Bool` giving the answer
  `is_operation_cancelled(operation_id)` returns when queried after a given
  number of data rows has been written (the cancellation flag is external
  state flipped by another actor; each query observes it at a definite point
  of the run, identified by the rows-written count at that point);
* a sink-failure configuration: `worksheet.write`/`worksheet.set_row` raise at
  the n-th sink call, or never;
* the batch size `settings.get_batch_size('export')`;
* the cursor: the rows it will yield, plus an optional exception its next
  `fetchmany` raises once they are exhausted (a fetch failure after a prefix
  of the data is the cursor whose `rows` are that prefix).

Every `worksheet.write` / `worksheet.set_row` call, every gate query and every
fetch is recorded in an event trace (most recent first in `WState.rev`).
-/

/-- A Python exception value: class name and message. -/
structure PyExc where
  excType : String
  msg : String
deriving DecidableEq, Repr

/-- Line 175/190: `raise Exception("Operation cancelled by user")` — the bare
`Exception` class with a fixed message. -/
def cancelExc : PyExc := ⟨"Exception", "Operation cancelled by user"⟩

/-- A Python value appearing in a result row. -/
inductive PyVal where
  | vNone
  | vStr (s : String)
  | vInt (n : Int)
  | vDate (iso : String)
deriving DecidableEq, Repr

/-- Python truthiness of a cell value (`if col_idx == 2 and value`):
`None`, `""` and `0` are falsy; a datetime object is always truthy. -/
def PyVal.truthy : PyVal → Bool
  | .vNone => false
  | .vStr s => !(s == "")
  | .vInt n => !(n == 0)
  | .vDate _ => true

/-- The three workbook formats built by `create_excel_formats`. -/
inductive CellStyle where
  | header
  | data
  | date
deriving DecidableEq, Repr

/-- One observable action of the writer. -/
inductive Ev where
  | cell (row col : Nat) (v : PyVal) (style : CellStyle)
  | rowHeight (row h : Nat)
  | gateQuery (written : Nat) (answer : Bool)
  | fetch
deriving DecidableEq, Repr

/-- Lines 197–202: the format chosen for one cell —
`date_format` exactly when `col_idx == 2 and value` (truthiness test). -/
def styleFor (col : Nat) (v : PyVal) : CellStyle :=
  if col == 2 && v.truthy then .date else .data

/-- Writer state: `row_idx`, `total_rows`, `rows_since_last_check`, the
number of sink calls made so far, and the event trace (most recent first). -/
structure WState where
  rowIdx : Nat
  totalRows : Nat
  sinceLast : Nat
  sinkCalls : Nat
  rev : List Ev

/-- Sink-failure configuration: `some (n, e)` makes the n-th (0-based)
`worksheet.write`/`worksheet.set_row` call raise `e`. -/
abbrev SinkCfg := Option (Nat × PyExc)

/-- One sink call: raises per the failure configuration (nothing recorded),
otherwise records the event. -/
def sinkCall (sf : SinkCfg) (e : Ev) (st : WState) : Except PyExc WState :=
  match sf with
  | some (k, exc) =>
    if st.sinkCalls == k then .error exc
    else .ok { st with sinkCalls := st.sinkCalls + 1, rev := e :: st.rev }
  | none => .ok { st with sinkCalls := st.sinkCalls + 1, rev := e :: st.rev }

/-- How a run of `write_data_to_excel` ends: normal return of `total_rows`,
the cancellation raise (carrying the `total_rows` value the raise site logs),
or propagation of a cursor / sink exception. -/
inductive ExitKind where
  | completed (totalRows : Nat)
  | cancelledRun (progress : Nat)
  | sourceRaised (e : PyExc)
  | sinkRaised (e : PyExc)
deriving DecidableEq, Repr

/-- Result of a sub-computation: either an early exit or the next state. -/
inductive StepRes where
  | halted (k : ExitKind) (st : WState)
  | cont (st : WState)

/-- Final outcome of a run together with the final writer state. -/
structure RunResult where
  exit : ExitKind
  final : WState

/-- Lines 197–202: the `for col_idx, value in enumerate(row)` cell loop. -/
def writeCells (sf : SinkCfg) (rowIdx : Nat) : Nat → List PyVal → WState → StepRes
  | _, [], st => .cont st
  | colIdx, v :: rest, st =>
    match sinkCall sf (.cell rowIdx colIdx v (styleFor colIdx v)) st with
    | .error e => .halted (.sinkRaised e) st
    | .ok st' => writeCells sf rowIdx (colIdx + 1) rest st'

/-- Lines 193–203: the body of one row after the cancellation bookkeeping —
`set_row` every 10th row, then the cells, then `row_idx += 1`. -/
def rowBody (sf : SinkCfg) (row : List PyVal) (st : WState) : StepRes :=
  match (if st.rowIdx % 10 == 0 then sinkCall sf (.rowHeight st.rowIdx 15) st
         else .ok st) with
  | .error e => .halted (.sinkRaised e) st
  | .ok st1 =>
    match writeCells sf st.rowIdx 0 row st1 with
    | .halted k s => .halted k s
    | .cont st2 => .cont { st2 with rowIdx := st2.rowIdx + 1 }

/-- Lines 183–203: one iteration of `for row in rows` — increment
`rows_since_last_check`; at 1000 query the gate (raising the cancellation
exception with `total_rows` as the logged progress) and reset the counter;
then the row body. -/
def processRow (gate : Nat → Bool) (sf : SinkCfg) (row : List PyVal)
    (st : WState) : StepRes :=
  if st.sinceLast + 1 ≥ 1000 then
    let w := st.rowIdx - 1
    let ans := gate w
    if ans then .halted (.cancelledRun st.totalRows)
      ⟨st.rowIdx, st.totalRows, st.sinceLast + 1, st.sinkCalls, .gateQuery w ans :: st.rev⟩
    else rowBody sf row
      ⟨st.rowIdx, st.totalRows, 0, st.sinkCalls, .gateQuery w ans :: st.rev⟩
  else rowBody sf row
    ⟨st.rowIdx, st.totalRows, st.sinceLast + 1, st.sinkCalls, st.rev⟩

/-- Lines 171–206: the `while True` batch loop, driven row by row.

The fetched batch is represented by counting down `leftInBatch` while rows
are pulled one at a time from the cursor's remaining rows: `fetchmany`
returns the next `min(batch_size, remaining)` rows, and the `for` loop
consumes exactly those, so pulling them one by one with a countdown yields
the identical sequence of writes, gate queries and counter updates.
`leftInBatch = 0` (or running out of rows) is the end of the current batch:
there `total_rows += len(rows)` is performed as `totalRows := rowIdx - 1`
(equal to it, because `row_idx` advanced once per processed row and
`total_rows` held `row_idx - 1` at the previous batch end), followed by the
pre-batch cancellation check and the next fetch — `fetchmany` raising the
cursor's failure once the rows are exhausted, or returning the empty batch
that breaks the loop. -/
def writeLoop (gate : Nat → Bool) (sf : SinkCfg) (batchSize : Nat)
    (ff : Option PyExc) : List (List PyVal) → Nat → WState → RunResult
  | [], _, st =>
    let w := st.rowIdx - 1
    let ans := gate w
    if ans then ⟨.cancelledRun (st.rowIdx - 1),
      ⟨st.rowIdx, st.rowIdx - 1, st.sinceLast, st.sinkCalls, .gateQuery w ans :: st.rev⟩⟩
    else
      match ff with
      | some e => ⟨.sourceRaised e,
          ⟨st.rowIdx, st.rowIdx - 1, st.sinceLast, st.sinkCalls, .gateQuery w ans :: st.rev⟩⟩
      | none => ⟨.completed (st.rowIdx - 1),
          ⟨st.rowIdx, st.rowIdx - 1, st.sinceLast, st.sinkCalls,
            .fetch :: .gateQuery w ans :: st.rev⟩⟩
  | row :: rest, leftInBatch + 1, st =>
    match processRow gate sf row st with
    | .halted k s => ⟨k, s⟩
    | .cont st' => writeLoop gate sf batchSize ff rest leftInBatch st'
  | row :: rest, 0, st =>
    let w := st.rowIdx - 1
    let ans := gate w
    if ans then ⟨.cancelledRun (st.rowIdx - 1),
      ⟨st.rowIdx, st.rowIdx - 1, st.sinceLast, st.sinkCalls, .gateQuery w ans :: st.rev⟩⟩
    else
      match batchSize with
      | 0 => ⟨.completed (st.rowIdx - 1),
          ⟨st.rowIdx, st.rowIdx - 1, st.sinceLast, st.sinkCalls,
            .fetch :: .gateQuery w ans :: st.rev⟩⟩
      | bs + 1 =>
        match processRow gate sf row
            ⟨st.rowIdx, st.rowIdx - 1, st.sinceLast, st.sinkCalls,
              .fetch :: .gateQuery w ans :: st.rev⟩ with
        | .halted k s => ⟨k, s⟩
        | .cont st' => writeLoop gate sf batchSize ff rest bs st'

/-- The forward-only cursor: the rows it will yield, and the exception (if
any) its next `fetchmany` raises once they are exhausted. -/
structure Cursor where
  rows : List (List PyVal)
  fetchFail : Option PyExc

/-- `row_idx = 1, total_rows = 0, rows_since_last_check = 0`, empty trace. -/
def initState : WState := ⟨1, 0, 0, 0, []⟩

/-- Lines 158–209: `write_data_to_excel` for a given cancellation gate,
sink-failure configuration, batch size and cursor. -/
def write_data_to_excel (gate : Nat → Bool) (sf : SinkCfg) (batchSize : Nat)
    (cur : Cursor) : RunResult :=
  writeLoop gate sf batchSize cur.fetchFail cur.rows 0 initState

/-- Lines 149–156: `write_excel_headers` — one header cell per column at row
0, then `set_row(0, 20)`. -/
def write_excel_headers (sf : SinkCfg) : Nat → List String → WState → StepRes
  | _, [], st =>
    match sinkCall sf (.rowHeight 0 20) st with
    | .error e => .halted (.sinkRaised e) st
    | .ok st' => .cont st'
  | colIdx, c :: rest, st =>
    match sinkCall sf (.cell 0 colIdx (.vStr c) .header) st with
    | .error e => .halted (.sinkRaised e) st
    | .ok st' => write_excel_headers sf (colIdx + 1) rest st'

/-- Modelled from the spec: the caller sequencing of §2/§4.4 — the export
pipeline writes the header row first (`write_excel_headers`) and then streams
the data (`write_data_to_excel`) into the same worksheet; the call site that
chains the two functions is outside `src/`, so only this composition (header
first, then data, against one shared sink) is taken from the spec — both
components are the source functions above. -/
def export_pipeline (gate : Nat → Bool) (sf : SinkCfg) (batchSize : Nat)
    (cur : Cursor) (columns : List String) : RunResult :=
  match write_excel_headers sf 0 columns initState with
  | .halted k s => ⟨k, s⟩
  | .cont st => writeLoop gate sf batchSize cur.fetchFail cur.rows 0 st

/-- The event trace of a run, in chronological order. -/
def RunResult.events (r : RunResult) : List Ev := r.final.rev.reverse

/-- Number of data rows fully written (`row_idx - 1`). -/
def RunResult.rowsWritten (r : RunResult) : Nat := r.final.rowIdx - 1

/-- What the Python caller observes: the returned count, or the raised
exception value (`Exception("Operation cancelled by user")` for cancellation,
the propagated cursor/sink exception otherwise). -/
def callerView : ExitKind → Except PyExc Nat
  | .completed n => .ok n
  | .cancelledRun _ => .error cancelExc
  | .sourceRaised e => .error e
  | .sinkRaised e => .error e

/-- The state a sub-computation ends in, whether it halted or continued. -/
def StepRes.st : StepRes → WState
  | .halted _ s => s
  | .cont s => s

/-- The rows-written counts at which the gate was queried, in trace order. -/
def queryWrittens (l : List Ev) : List Nat :=
  l.filterMap fun e => match e with | .gateQuery w _ => some w | _ => none

/-- Consecutive gate queries are at most 1000 written rows apart. -/
def gapsOK : Nat → List Nat → Bool
  | _, [] => true
  | prev, q :: qs => decide (q ≤ prev + 1000) && gapsOK q qs

/-- The last element of a list, or the seed for the empty list. -/
def lastD : Nat → List Nat → Nat
  | prev, [] => prev
  | _, q :: qs => lastD q qs

/-- The gate-consultation cadence: starting from 0 written rows, consecutive
queries are at most 1000 written rows apart, and at most 1000 further rows
are written after the last query. -/
def cadenceOK : Nat → List Nat → Nat → Bool
  | prev, [], total => decide (total ≤ prev + 1000)
  | prev, q :: qs, total => decide (q ≤ prev + 1000) && cadenceOK q qs total

/-- On the reversed (most-recent-first) trace: every fetch is immediately
preceded, chronologically, by a gate query answering `false`. -/
def revFetchOK : List Ev → Bool
  | [] => true
  | .fetch :: rest =>
    (match rest with
     | .gateQuery _ false :: _ => true
     | _ => false) && revFetchOK rest
  | _ :: rest => revFetchOK rest

/-- A well-formed sink call made by the data loop: a 15-high row height at a
data row in `[lo, hi]`, or a cell in `[lo, hi]` styled exactly as lines
197–202 prescribe (gate queries and fetches are accounted separately). -/
def newEvOK (lo hi : Nat) : Ev → Bool
  | .cell r c v sty => (sty == styleFor c v) && decide (lo ≤ r) && decide (r ≤ hi)
  | .rowHeight r h => (h == 15) && decide (lo ≤ r) && decide (r ≤ hi)
  | .gateQuery _ _ => false
  | .fetch => false

/-- The row index of a cell-write event. -/
def cellRow : Ev → Option Nat
  | .cell r _ _ _ => some r
  | _ => none

/-- The header cells `write_excel_headers` writes for the given columns,
starting at the given column index. -/
def headerCells (colIdx : Nat) : List String → List Ev
  | [] => []
  | c :: rest => .cell 0 colIdx (.vStr c) .header :: headerCells (colIdx + 1) rest

/-- Whether some cell was written at row `j`. -/
def hasCellAt (l : List Ev) (j : Nat) : Bool :=
  l.any fun e => match e with | .cell r _ _ _ => r == j | _ => false

/-- Every row the cursor yields has at least one column. -/
def allRowsNonempty (rows : List (List PyVal)) : Bool :=
  rows.all fun row => !row.isEmpty

/-! ## Closed-form stepping lemmas for failure-free sinks

With no configured sink failure, every sink call succeeds and only the
passive state (call count, trace) changes; these lemmas advance a run over a
block of rows in closed form, quantifying the passive state existentially.
They drive the large concrete runs that a direct kernel evaluation cannot
reach. -/

theorem writeCells_none (ri : Nat) (vals : List PyVal) :
    ∀ colIdx st, ∃ c' rev',
      writeCells none ri colIdx vals st =
        .cont ⟨st.rowIdx, st.totalRows, st.sinceLast, c', rev'⟩ := by
  induction vals with
  | nil =>
    intro colIdx st
    exact ⟨st.sinkCalls, st.rev, rfl⟩
  | cons v rest ih =>
    intro colIdx st
    obtain ⟨c', rev', h⟩ := ih (colIdx + 1)
      { st with sinkCalls := st.sinkCalls + 1,
                rev := .cell ri colIdx v (styleFor colIdx v) :: st.rev }
    exact ⟨c', rev', h⟩

theorem rowBody_none (row : List PyVal) (st : WState) :
    ∃ c' rev',
      rowBody none row st =
        .cont ⟨st.rowIdx + 1, st.totalRows, st.sinceLast, c', rev'⟩ := by
  unfold rowBody
  by_cases h : st.rowIdx % 10 == 0
  · simp only [h, if_pos]
    obtain ⟨c', rev', hc⟩ := writeCells_none st.rowIdx row 0
      { st with sinkCalls := st.sinkCalls + 1, rev := .rowHeight st.rowIdx 15 :: st.rev }
    simp only [sinkCall]
    rw [hc]
    exact ⟨c', rev', rfl⟩
  · simp only [h, if_neg, Bool.false_eq_true, not_false_iff]
    obtain ⟨c', rev', hc⟩ := writeCells_none st.rowIdx row 0 st
    rw [hc]
    exact ⟨c', rev', rfl⟩

theorem processRow_none_noQuery (g : Nat → Bool) (row : List PyVal)
    (R T s c : Nat) (rev : List Ev) (hs : s + 1 ≤ 999) :
    ∃ c' rev',
      processRow g none row ⟨R, T, s, c, rev⟩ =
        .cont ⟨R + 1, T, s + 1, c', rev'⟩ := by
  unfold processRow
  have hlt : ¬ (s + 1 ≥ 1000) := by omega
  simp only [if_neg hlt]
  obtain ⟨c', rev', hc⟩ := rowBody_none row ⟨R, T, s + 1, c, rev⟩
  rw [hc]
  exact ⟨c', rev', rfl⟩

theorem processRow_none_query (g : Nat → Bool) (row : List PyVal)
    (R T c : Nat) (rev : List Ev) (hg : g (R - 1) = false) :
    ∃ c' rev',
      processRow g none row ⟨R, T, 999, c, rev⟩ =
        .cont ⟨R + 1, T, 0, c', rev'⟩ := by
  unfold processRow
  simp only [hg]
  have hge : (999 + 1 ≥ 1000) := by omega
  simp only [if_pos hge, Bool.false_eq_true, if_neg (by simp : ¬ (False : Prop))]
  obtain ⟨c', rev', hc⟩ := rowBody_none row
    ⟨R, T, 0, c, .gateQuery (R - 1) false :: rev⟩
  rw [hc]
  exact ⟨c', rev', rfl⟩

theorem processRow_none_cancel (g : Nat → Bool) (row : List PyVal)
    (R T c : Nat) (rev : List Ev) (hg : g (R - 1) = true) :
    processRow g none row ⟨R, T, 999, c, rev⟩ =
      .halted (.cancelledRun T) ⟨R, T, 1000, c, .gateQuery (R - 1) true :: rev⟩ := by
  unfold processRow
  simp only [hg]
  rfl

/-- Advance a failure-free run over `m` rows of the current batch during
which no cancellation check fires (`s + m ≤ 999`). -/
theorem writeLoop_blockA (g : Nat → Bool) (bs : Nat) (ff : Option PyExc)
    (row : List PyVal) (m : Nat) :
    ∀ k l n lb R T s c rev R' s', n = m + k → lb = m + l → s + m ≤ 999 →
      R' = R + m → s' = s + m →
      ∃ c' rev',
        writeLoop g none bs ff (List.replicate n row) lb ⟨R, T, s, c, rev⟩ =
          writeLoop g none bs ff (List.replicate k row) l ⟨R', T, s', c', rev'⟩ := by
  induction m with
  | zero =>
    intro k l n lb R T s c rev R' s' hn hlb _ hR hs
    subst hn hlb hR hs
    simp only [Nat.zero_add, Nat.add_zero]
    exact ⟨c, rev, rfl⟩
  | succ m ih =>
    intro k l n lb R T s c rev R' s' hn hlb hsm hR hs
    subst hn hlb hR hs
    have hrep : List.replicate (m + 1 + k) row = row :: List.replicate (m + k) row := by
      rw [show m + 1 + k = (m + k) + 1 by omega, List.replicate_succ]
    have hone : ∃ c1 rev1,
        writeLoop g none bs ff (List.replicate (m + 1 + k) row) (m + 1 + l)
            ⟨R, T, s, c, rev⟩ =
          writeLoop g none bs ff (List.replicate (m + k) row) (m + l)
            ⟨R + 1, T, s + 1, c1, rev1⟩ := by
      obtain ⟨c1, rev1, hpr⟩ := processRow_none_noQuery g row R T s c rev (by omega)
      refine ⟨c1, rev1, ?_⟩
      rw [hrep, show m + 1 + l = (m + l) + 1 by omega]
      show (match processRow g none row ⟨R, T, s, c, rev⟩ with
        | .halted k s => RunResult.mk k s
        | .cont st' =>
          writeLoop g none bs ff (List.replicate (m + k) row) (m + l) st') = _
      rw [hpr]
    obtain ⟨c1, rev1, h1⟩ := hone
    obtain ⟨c', rev', h2⟩ := ih k l (m + k) (m + l) (R + 1) T (s + 1) c1 rev1
      (R + 1 + m) (s + 1 + m) rfl rfl (by omega) rfl rfl
    refine ⟨c', rev', ?_⟩
    rw [h1, h2, show R + 1 + m = R + (m + 1) by omega, show s + 1 + m = s + (m + 1) by omega]

/-- Advance a failure-free run over the row whose per-row cancellation check
fires with answer `false` (counter at 999, reset to 0). -/
theorem writeLoop_blockB (g : Nat → Bool) (bs : Nat) (ff : Option PyExc)
    (row : List PyVal) (k l n lb R T c : Nat) (rev : List Ev) (w R' : Nat)
    (hn : n = k + 1) (hlb : lb = l + 1) (hw : w = R - 1) (hg : g w = false)
    (hR : R' = R + 1) :
    ∃ c' rev',
      writeLoop g none bs ff (List.replicate n row) lb ⟨R, T, 999, c, rev⟩ =
        writeLoop g none bs ff (List.replicate k row) l ⟨R', T, 0, c', rev'⟩ := by
  subst hn hlb hw hR
  obtain ⟨c', rev', hpr⟩ := processRow_none_query g row R T c rev hg
  refine ⟨c', rev', ?_⟩
  rw [List.replicate_succ]
  show (match processRow g none row ⟨R, T, 999, c, rev⟩ with
    | .halted k s => RunResult.mk k s
    | .cont st' => writeLoop g none bs ff (List.replicate k row) l st') = _
  rw [hpr]

/-- Advance a failure-free run over a batch boundary whose pre-batch check
answers `false`: close the batch (`total_rows := row_idx - 1`), fetch, and
process the first row of the new batch (no per-row check: `s + 1 ≤ 999`). -/
theorem writeLoop_blockC (g : Nat → Bool) (bs : Nat) (ff : Option PyExc)
    (row : List PyVal) (k n R T s c : Nat) (rev : List Ev)
    (w bs' R' T' s' : Nat)
    (hn : n = k + 1) (hw : w = R - 1) (hg : g w = false) (hbs : bs = bs' + 1)
    (hs : s + 1 ≤ 999) (hR : R' = R + 1) (hT : T' = R - 1) (hs' : s' = s + 1) :
    ∃ c' rev',
      writeLoop g none bs ff (List.replicate n row) 0 ⟨R, T, s, c, rev⟩ =
        writeLoop g none bs ff (List.replicate k row) bs' ⟨R', T', s', c', rev'⟩ := by
  subst hn hw hbs hR hT hs'
  obtain ⟨c', rev', hpr⟩ := processRow_none_noQuery g row R (R - 1) s c
    (.fetch :: .gateQuery (R - 1) false :: rev) (by omega)
  refine ⟨c', rev', ?_⟩
  rw [List.replicate_succ]
  simp only [writeLoop, hg, Bool.false_eq_true, if_false, hpr]

/-- Terminate a failure-free run at a per-row cancellation check that
answers `true`: the raise reports the stale `total_rows` value `T`. -/
theorem writeLoop_cancelAtQuery (g : Nat → Bool) (bs : Nat) (ff : Option PyExc)
    (row : List PyVal) (k l n lb R T c : Nat) (rev : List Ev) (w : Nat)
    (hn : n = k + 1) (hlb : lb = l + 1) (hw : w = R - 1) (hg : g w = true) :
    writeLoop g none bs ff (List.replicate n row) lb ⟨R, T, 999, c, rev⟩ =
      ⟨.cancelledRun T, ⟨R, T, 1000, c, .gateQuery w true :: rev⟩⟩ := by
  subst hn hlb hw
  rw [List.replicate_succ]
  show (match processRow g none row ⟨R, T, 999, c, rev⟩ with
    | .halted k s => RunResult.mk k s
    | .cont st' => writeLoop g none bs ff (List.replicate k row) l st') = _
  rw [processRow_none_cancel g row R T c rev hg]

/-- One full check cycle starting with counter 0: 999 unchecked rows, then
the row whose check at `R + 998` answers `false`. -/
theorem writeLoop_cycleZ (g : Nat → Bool) (bs : Nat) (ff : Option PyExc)
    (row : List PyVal) (k l n lb R T c : Nat) (rev : List Ev) (w R' : Nat)
    (hn : n = k + 1000) (hlb : lb = l + 1000) (hw : w = R + 998)
    (hg : g w = false) (hR : R' = R + 1000) :
    ∃ c' rev',
      writeLoop g none bs ff (List.replicate n row) lb ⟨R, T, 0, c, rev⟩ =
        writeLoop g none bs ff (List.replicate k row) l ⟨R', T, 0, c', rev'⟩ := by
  subst hn hlb hw hR
  obtain ⟨c1, rev1, h1⟩ := writeLoop_blockA g bs ff row 999 (k + 1) (l + 1)
    (k + 1000) (l + 1000) R T 0 c rev (R + 999) 999
    (by omega) (by omega) (by omega) rfl (by omega)
  obtain ⟨c2, rev2, h2⟩ := writeLoop_blockB g bs ff row k l (k + 1) (l + 1)
    (R + 999) T c1 rev1 (R + 998) (R + 1000)
    rfl rfl (by omega) hg (by omega)
  exact ⟨c2, rev2, by rw [h1, h2]⟩

/-- One check cycle starting with counter 1 (the row just after a batch
boundary): 998 unchecked rows, then the row whose check at `R + 997`
answers `false`. -/
theorem writeLoop_cycleO (g : Nat → Bool) (bs : Nat) (ff : Option PyExc)
    (row : List PyVal) (k l n lb R T c : Nat) (rev : List Ev) (w R' : Nat)
    (hn : n = k + 999) (hlb : lb = l + 999) (hw : w = R + 997)
    (hg : g w = false) (hR : R' = R + 999) :
    ∃ c' rev',
      writeLoop g none bs ff (List.replicate n row) lb ⟨R, T, 1, c, rev⟩ =
        writeLoop g none bs ff (List.replicate k row) l ⟨R', T, 0, c', rev'⟩ := by
  subst hn hlb hw hR
  obtain ⟨c1, rev1, h1⟩ := writeLoop_blockA g bs ff row 998 (k + 1) (l + 1)
    (k + 999) (l + 999) R T 1 c rev (R + 998) 999
    (by omega) (by omega) (by omega) rfl (by omega)
  obtain ⟨c2, rev2, h2⟩ := writeLoop_blockB g bs ff row k l (k + 1) (l + 1)
    (R + 998) T c1 rev1 (R + 997) (R + 999)
    rfl rfl (by omega) hg (by omega)
  exact ⟨c2, rev2, by rw [h1, h2]⟩

/-! ## The 25,000-row cancellation example of the spec (§8) -/

/-- The gate of the spec's example: cancellation requested after the
12,000th row — every check made at 12,000 or more written rows sees `true`,
every earlier check sees `false`. -/
def c1Gate : Nat → Bool := fun w => decide (12000 ≤ w)

/-- 25,000 one-column rows. -/
def c1Rows : List (List PyVal) := List.replicate 25000 [PyVal.vInt 1]

/-- The spec's example run: 25,000 rows, batches of 5,000, check stride
1,000, cancellation after the 12,000th row, failure-free sink. -/
def c1Run : RunResult := write_data_to_excel c1Gate none 5000 ⟨c1Rows, none⟩

theorem c1Run_eval :
    c1Run.exit = .cancelledRun 10000 ∧ c1Run.final.rowIdx = 13000 := by
  have h0 : c1Run = writeLoop c1Gate none 5000 none
      (List.replicate 25000 [PyVal.vInt 1]) 0 ⟨1, 0, 0, 0, []⟩ := rfl
  -- batch 1: boundary check at 0 written rows, then stride checks at
  -- 999, 1999, 2999, 3999, 4999
  obtain ⟨c1, rev1, h1⟩ := writeLoop_blockC c1Gate 5000 none [PyVal.vInt 1]
    24999 25000 1 0 0 0 [] 0 4999 2 0 1
    (by decide) (by decide) (by decide) (by decide) (by decide) (by decide)
    (by decide) (by decide)
  obtain ⟨c2, rev2, h2⟩ := writeLoop_cycleO c1Gate 5000 none [PyVal.vInt 1]
    24000 4000 24999 4999 2 0 c1 rev1 999 1001
    (by decide) (by decide) (by decide) (by decide) (by decide)
  obtain ⟨c3, rev3, h3⟩ := writeLoop_cycleZ c1Gate 5000 none [PyVal.vInt 1]
    23000 3000 24000 4000 1001 0 c2 rev2 1999 2001
    (by decide) (by decide) (by decide) (by decide) (by decide)
  obtain ⟨c4, rev4, h4⟩ := writeLoop_cycleZ c1Gate 5000 none [PyVal.vInt 1]
    22000 2000 23000 3000 2001 0 c3 rev3 2999 3001
    (by decide) (by decide) (by decide) (by decide) (by decide)
  obtain ⟨c5, rev5, h5⟩ := writeLoop_cycleZ c1Gate 5000 none [PyVal.vInt 1]
    21000 1000 22000 2000 3001 0 c4 rev4 3999 4001
    (by decide) (by decide) (by decide) (by decide) (by decide)
  obtain ⟨c6, rev6, h6⟩ := writeLoop_cycleZ c1Gate 5000 none [PyVal.vInt 1]
    20000 0 21000 1000 4001 0 c5 rev5 4999 5001
    (by decide) (by decide) (by decide) (by decide) (by decide)
  -- batch 2: boundary check at 5,000, stride checks at 5999 … 9999
  obtain ⟨c7, rev7, h7⟩ := writeLoop_blockC c1Gate 5000 none [PyVal.vInt 1]
    19999 20000 5001 0 0 c6 rev6 5000 4999 5002 5000 1
    (by decide) (by decide) (by decide) (by decide) (by decide) (by decide)
    (by decide) (by decide)
  obtain ⟨c8, rev8, h8⟩ := writeLoop_cycleO c1Gate 5000 none [PyVal.vInt 1]
    19000 4000 19999 4999 5002 5000 c7 rev7 5999 6001
    (by decide) (by decide) (by decide) (by decide) (by decide)
  obtain ⟨c9, rev9, h9⟩ := writeLoop_cycleZ c1Gate 5000 none [PyVal.vInt 1]
    18000 3000 19000 4000 6001 5000 c8 rev8 6999 7001
    (by decide) (by decide) (by decide) (by decide) (by decide)
  obtain ⟨c10, rev10, h10⟩ := writeLoop_cycleZ c1Gate 5000 none [PyVal.vInt 1]
    17000 2000 18000 3000 7001 5000 c9 rev9 7999 8001
    (by decide) (by decide) (by decide) (by decide) (by decide)
  obtain ⟨c11, rev11, h11⟩ := writeLoop_cycleZ c1Gate 5000 none [PyVal.vInt 1]
    16000 1000 17000 2000 8001 5000 c10 rev10 8999 9001
    (by decide) (by decide) (by decide) (by decide) (by decide)
  obtain ⟨c12, rev12, h12⟩ := writeLoop_cycleZ c1Gate 5000 none [PyVal.vInt 1]
    15000 0 16000 1000 9001 5000 c11 rev11 9999 10001
    (by decide) (by decide) (by decide) (by decide) (by decide)
  -- batch 3: boundary check at 10,000 (total_rows frozen at 10,000),
  -- stride checks at 10999, 11999, then 12999 sees the cancellation
  obtain ⟨c13, rev13, h13⟩ := writeLoop_blockC c1Gate 5000 none [PyVal.vInt 1]
    14999 15000 10001 5000 0 c12 rev12 10000 4999 10002 10000 1
    (by decide) (by decide) (by decide) (by decide) (by decide) (by decide)
    (by decide) (by decide)
  obtain ⟨c14, rev14, h14⟩ := writeLoop_cycleO c1Gate 5000 none [PyVal.vInt 1]
    14000 4000 14999 4999 10002 10000 c13 rev13 10999 11001
    (by decide) (by decide) (by decide) (by decide) (by decide)
  obtain ⟨c15, rev15, h15⟩ := writeLoop_cycleZ c1Gate 5000 none [PyVal.vInt 1]
    13000 3000 14000 4000 11001 10000 c14 rev14 11999 12001
    (by decide) (by decide) (by decide) (by decide) (by decide)
  obtain ⟨c16, rev16, h16⟩ := writeLoop_blockA c1Gate 5000 none [PyVal.vInt 1]
    999 12001 2001 13000 3000 12001 10000 0 c15 rev15 13000 999
    (by decide) (by decide) (by decide) (by decide) (by decide)
  have h17 := writeLoop_cancelAtQuery c1Gate 5000 none [PyVal.vInt 1]
    12000 2000 12001 2001 13000 10000 c16 rev16 12999
    (by decide) (by decide) (by decide) (by decide)
  have key : c1Run = ⟨.cancelledRun 10000,
      ⟨13000, 10000, 1000, c16, .gateQuery 12999 true :: rev16⟩⟩ := by
    rw [h0, h1, h2, h3, h4, h5, h6, h7, h8, h9, h10, h11, h12, h13, h14, h15,
      h16, h17]
  rw [key]
  exact ⟨rfl, rfl⟩

/-! ## Characterization of one row under arbitrary sink configurations -/

theorem writeCells_spec (sf : SinkCfg) (ri : Nat) (vals : List PyVal) :
    ∀ colIdx st,
      ((writeCells sf ri colIdx vals st).st).rowIdx = st.rowIdx ∧
      ((writeCells sf ri colIdx vals st).st).totalRows = st.totalRows ∧
      ((writeCells sf ri colIdx vals st).st).sinceLast = st.sinceLast ∧
      (∃ pre, ((writeCells sf ri colIdx vals st).st).rev = pre ++ st.rev ∧
        ∀ e ∈ pre, ∃ c v, e = .cell ri c v (styleFor c v)) ∧
      (∀ k s, writeCells sf ri colIdx vals st = .halted k s →
        ∃ e n, k = .sinkRaised e ∧ sf = some (n, e)) := by
  induction vals with
  | nil =>
    intro colIdx st
    refine ⟨rfl, rfl, rfl, ⟨[], rfl, by simp⟩, ?_⟩
    intro k s h
    exact nomatch h
  | cons v rest ih =>
    intro colIdx st
    show _ ∧ _ ∧ _ ∧ _ ∧ _
    unfold writeCells sinkCall
    match hsf : sf with
    | none =>
      obtain ⟨h1, h2, h3, ⟨pre, hpre, hall⟩, h5⟩ := ih (colIdx + 1)
        { st with sinkCalls := st.sinkCalls + 1,
                  rev := .cell ri colIdx v (styleFor colIdx v) :: st.rev }
      refine ⟨h1, h2, h3, ⟨pre ++ [.cell ri colIdx v (styleFor colIdx v)], ?_, ?_⟩, ?_⟩
      · rw [hpre]; simp
      · intro e he
        rcases List.mem_append.mp he with h | h
        · exact hall e h
        · simp only [List.mem_singleton] at h
          exact ⟨colIdx, v, h⟩
      · intro k s h
        rcases h5 k s h with ⟨e, n, hk, hs⟩
        exact absurd hs (by simp)
    | some (k0, exc) =>
      by_cases hc : st.sinkCalls == k0
      · simp only [hc, if_pos]
        exact ⟨rfl, rfl, rfl, ⟨[], rfl, by simp⟩, fun k s h => by
          simp only [StepRes.halted.injEq] at h
          exact ⟨exc, k0, h.1.symm, rfl⟩⟩
      · simp only [hc, if_neg, Bool.false_eq_true, not_false_iff]
        obtain ⟨h1, h2, h3, ⟨pre, hpre, hall⟩, h5⟩ := ih (colIdx + 1)
          { st with sinkCalls := st.sinkCalls + 1,
                    rev := .cell ri colIdx v (styleFor colIdx v) :: st.rev }
        refine ⟨h1, h2, h3, ⟨pre ++ [.cell ri colIdx v (styleFor colIdx v)], ?_, ?_⟩, h5⟩
        · rw [hpre]; simp
        · intro e he
          rcases List.mem_append.mp he with h | h
          · exact hall e h
          · simp only [List.mem_singleton] at h
            exact ⟨colIdx, v, h⟩

theorem sinkCall_spec (sf : SinkCfg) (e : Ev) (st : WState) :
    (∃ st', sinkCall sf e st = .ok st' ∧ st'.rowIdx = st.rowIdx ∧
      st'.totalRows = st.totalRows ∧ st'.sinceLast = st.sinceLast ∧
      st'.rev = e :: st.rev) ∨
    (∃ exc n, sinkCall sf e st = .error exc ∧ sf = some (n, exc)) := by
  unfold sinkCall
  match sf with
  | none => exact Or.inl ⟨_, rfl, rfl, rfl, rfl, rfl⟩
  | some (k0, exc) =>
    by_cases hc : st.sinkCalls == k0
    · simp only [hc, if_pos]
      exact Or.inr ⟨exc, k0, rfl, rfl⟩
    · simp only [hc, if_neg, Bool.false_eq_true, not_false_iff]
      exact Or.inl ⟨_, rfl, rfl, rfl, rfl, rfl⟩

theorem queryWrittens_of_cells {pre : List Ev} {ri : Nat}
    (h : ∀ e ∈ pre, ∃ c v, e = .cell ri c v (styleFor c v)) :
    queryWrittens pre = [] := by
  unfold queryWrittens
  rw [List.filterMap_eq_nil_iff]
  intro e he
  obtain ⟨c, v, rfl⟩ := h e he
  rfl

theorem mem_queryWrittens {l : List Ev} {w : Nat} {a : Bool}
    (h : Ev.gateQuery w a ∈ l) : w ∈ queryWrittens l := by
  unfold queryWrittens
  exact List.mem_filterMap.mpr ⟨_, h, rfl⟩

theorem queryWrittens_append (a b : List Ev) :
    queryWrittens (a ++ b) = queryWrittens a ++ queryWrittens b := by
  unfold queryWrittens
  exact List.filterMap_append a b _

theorem rowBody_spec (sf : SinkCfg) (row : List PyVal) (st : WState) :
    ((rowBody sf row st).st).totalRows = st.totalRows ∧
    ((rowBody sf row st).st).sinceLast = st.sinceLast ∧
    (∀ s', rowBody sf row st = .cont s' → s'.rowIdx = st.rowIdx + 1) ∧
    (∀ k s', rowBody sf row st = .halted k s' → s'.rowIdx = st.rowIdx ∧
      ∃ e n, k = .sinkRaised e ∧ sf = some (n, e)) ∧
    (∃ pre, ((rowBody sf row st).st).rev = pre ++ st.rev ∧
      (∀ e ∈ pre, newEvOK st.rowIdx st.rowIdx e = true) ∧
      queryWrittens pre = []) := by
  have hcells : ∀ st1 : WState, st1.rowIdx = st.rowIdx → st1.totalRows = st.totalRows →
      st1.sinceLast = st.sinceLast → (∃ pre1, st1.rev = pre1 ++ st.rev ∧
        (∀ e ∈ pre1, newEvOK st.rowIdx st.rowIdx e = true) ∧ queryWrittens pre1 = []) →
      ((match writeCells sf st.rowIdx 0 row st1 with
        | StepRes.halted k s => StepRes.halted k s
        | StepRes.cont st2 => StepRes.cont { st2 with rowIdx := st2.rowIdx + 1 }).st).totalRows
          = st.totalRows ∧
      ((match writeCells sf st.rowIdx 0 row st1 with
        | StepRes.halted k s => StepRes.halted k s
        | StepRes.cont st2 => StepRes.cont { st2 with rowIdx := st2.rowIdx + 1 }).st).sinceLast
          = st.sinceLast ∧
      (∀ s', (match writeCells sf st.rowIdx 0 row st1 with
        | StepRes.halted k s => StepRes.halted k s
        | StepRes.cont st2 => StepRes.cont { st2 with rowIdx := st2.rowIdx + 1 }) = .cont s' →
          s'.rowIdx = st.rowIdx + 1) ∧
      (∀ k s', (match writeCells sf st.rowIdx 0 row st1 with
        | StepRes.halted k s => StepRes.halted k s
        | StepRes.cont st2 => StepRes.cont { st2 with rowIdx := st2.rowIdx + 1 }) = .halted k s' →
          s'.rowIdx = st.rowIdx ∧ ∃ e n, k = .sinkRaised e ∧ sf = some (n, e)) ∧
      (∃ pre, ((match writeCells sf st.rowIdx 0 row st1 with
        | StepRes.halted k s => StepRes.halted k s
        | StepRes.cont st2 => StepRes.cont { st2 with rowIdx := st2.rowIdx + 1 }).st).rev
          = pre ++ st.rev ∧
        (∀ e ∈ pre, newEvOK st.rowIdx st.rowIdx e = true) ∧
        queryWrittens pre = []) := by
    intro st1 hri htr hsl ⟨pre1, hpre1, hok1, hq1⟩
    obtain ⟨w1, w2, w3, ⟨pre, hpre, hall⟩, w5⟩ := writeCells_spec sf st.rowIdx row 0 st1
    have hallOK : ∀ e ∈ pre, newEvOK st.rowIdx st.rowIdx e = true := by
      intro e he
      obtain ⟨c, v, rfl⟩ := hall e he
      simp [newEvOK]
    cases hwc : writeCells sf st.rowIdx 0 row st1 with
    | cont st2 =>
      rw [hwc] at w1 w2 w3 hpre
      simp only [StepRes.st] at w1 w2 w3 hpre
      refine ⟨by simp [StepRes.st, w2, htr], by simp [StepRes.st, w3, hsl], ?_, ?_, ?_⟩
      · intro s' hs'
        simp only [StepRes.cont.injEq] at hs'
        subst hs'
        simp only [w1, hri]
      · intro k s' hk
        exact nomatch hk
      · refine ⟨pre ++ pre1, ?_, ?_, ?_⟩
        · simp only [StepRes.st]
          rw [hpre, hpre1, List.append_assoc]
        · intro e he
          rcases List.mem_append.mp he with h | h
          · exact hallOK e h
          · exact hok1 e h
        · rw [queryWrittens_append, queryWrittens_of_cells hall, hq1]
          rfl
    | halted k st2 =>
      rw [hwc] at w1 w2 w3 hpre
      simp only [StepRes.st] at w1 w2 w3 hpre
      refine ⟨by simp [StepRes.st, w2, htr], by simp [StepRes.st, w3, hsl], ?_, ?_, ?_⟩
      · intro s' hs'
        exact nomatch hs'
      · intro k' s' hk
        simp only [StepRes.halted.injEq] at hk
        obtain ⟨rfl, rfl⟩ := hk
        exact ⟨by rw [w1, hri], w5 _ _ hwc⟩
      · refine ⟨pre ++ pre1, ?_, ?_, ?_⟩
        · simp only [StepRes.st]
          rw [hpre, hpre1, List.append_assoc]
        · intro e he
          rcases List.mem_append.mp he with h | h
          · exact hallOK e h
          · exact hok1 e h
        · rw [queryWrittens_append, queryWrittens_of_cells hall, hq1]
          rfl
  unfold rowBody
  by_cases h10 : st.rowIdx % 10 == 0
  · simp only [h10, if_pos]
    rcases sinkCall_spec sf (.rowHeight st.rowIdx 15) st with
      ⟨st1, hok, hri, htr, hsl, hrev⟩ | ⟨exc, n, herr, hsf⟩
    · rw [hok]
      exact hcells st1 hri htr hsl
        ⟨[.rowHeight st.rowIdx 15], by rw [hrev]; rfl, by simp [newEvOK], rfl⟩
    · rw [herr]
      refine ⟨rfl, rfl, ?_, ?_, ⟨[], rfl, by simp, rfl⟩⟩
      · intro s' hs'
        exact nomatch hs'
      · intro k s' hk
        simp only [StepRes.halted.injEq] at hk
        obtain ⟨rfl, rfl⟩ := hk
        exact ⟨rfl, exc, n, rfl, hsf⟩
  · simp only [h10, if_neg, Bool.false_eq_true, not_false_iff]
    exact hcells st rfl rfl rfl ⟨[], rfl, by simp, rfl⟩

theorem processRow_spec (g : Nat → Bool) (sf : SinkCfg) (row : List PyVal)
    (st : WState) :
    ((processRow g sf row st).st).totalRows = st.totalRows ∧
    (∀ s', processRow g sf row st = .cont s' → s'.rowIdx = st.rowIdx + 1 ∧
      s'.sinceLast = (if 1000 ≤ st.sinceLast + 1 then 0 else st.sinceLast + 1)) ∧
    (∀ k s', processRow g sf row st = .halted k s' → s'.rowIdx = st.rowIdx ∧
      (k = .cancelledRun st.totalRows ∨ ∃ e n, k = .sinkRaised e ∧ sf = some (n, e))) ∧
    (∃ pre, ((processRow g sf row st).st).rev = pre ++ st.rev ∧
      (∀ e ∈ pre, newEvOK st.rowIdx st.rowIdx e = true ∨
        e = .gateQuery (st.rowIdx - 1) (g (st.rowIdx - 1))) ∧
      queryWrittens pre = (if 1000 ≤ st.sinceLast + 1 then [st.rowIdx - 1] else [])) ∧
    (∀ w, Ev.gateQuery w true ∈ ((processRow g sf row st).st).rev →
      Ev.gateQuery w true ∈ st.rev ∨
      ∃ p s', processRow g sf row st = .halted (.cancelledRun p) s') := by
  unfold processRow
  by_cases hq : 1000 ≤ st.sinceLast + 1
  · rw [if_pos hq]
    cases hg : g (st.rowIdx - 1) with
    | true =>
      simp only [hg, eq_self_iff_true, if_true]
      refine ⟨rfl, ?_, ?_, ?_, ?_⟩
      · intro s' hs'
        exact nomatch hs'
      · intro k s' hk
        simp only [StepRes.halted.injEq] at hk
        obtain ⟨rfl, rfl⟩ := hk
        exact ⟨rfl, Or.inl rfl⟩
      · refine ⟨[.gateQuery (st.rowIdx - 1) true], rfl, ?_, ?_⟩
        · intro e he
          simp only [List.mem_singleton] at he
          subst he
          exact Or.inr rfl
        · rw [if_pos hq]
          rfl
      · intro w hw
        exact Or.inr ⟨st.totalRows, _, rfl⟩
    | false =>
      simp only [hg, Bool.false_eq_true, if_false]
      set stq : WState :=
        ⟨st.rowIdx, st.totalRows, 0, st.sinkCalls,
          .gateQuery (st.rowIdx - 1) false :: st.rev⟩ with hstq
      obtain ⟨r1, r2, r3, r4, pre, hpre, hok, hqw⟩ :=
        And.intro (rowBody_spec sf row stq).1 (And.intro (rowBody_spec sf row stq).2.1
          (And.intro (rowBody_spec sf row stq).2.2.1
            (And.intro (rowBody_spec sf row stq).2.2.2.1
              (rowBody_spec sf row stq).2.2.2.2)))
      refine ⟨r1, ?_, ?_, ?_, ?_⟩
      · intro s' hs'
        refine ⟨r3 s' hs', ?_⟩
        have hsl : s'.sinceLast = stq.sinceLast := by rw [hs'] at r2; exact r2
        rw [hsl, if_pos hq]
      · intro k s' hk
        obtain ⟨hri, e, n, hke, hsf⟩ := r4 k s' hk
        exact ⟨hri, Or.inr ⟨e, n, hke, hsf⟩⟩
      · refine ⟨pre ++ [.gateQuery (st.rowIdx - 1) false], ?_, ?_, ?_⟩
        · rw [hpre, hstq]
          simp
        · intro e he
          rcases List.mem_append.mp he with h | h
          · exact Or.inl (hok e h)
          · simp only [List.mem_singleton] at h
            subst h
            exact Or.inr rfl
        · rw [queryWrittens_append, hqw, if_pos hq]
          rfl
      · intro w hw
        rw [hpre] at hw
        rcases List.mem_append.mp hw with h | h
        · exact absurd (mem_queryWrittens h) (by rw [hqw]; simp)
        · simp only [hstq, List.mem_cons] at h
          rcases h with h | h
          · exact nomatch h
          · exact Or.inl h
  · rw [if_neg hq]
    set stn : WState :=
      ⟨st.rowIdx, st.totalRows, st.sinceLast + 1, st.sinkCalls, st.rev⟩ with hstn
    obtain ⟨r1, r2, r3, r4, pre, hpre, hok, hqw⟩ :=
      And.intro (rowBody_spec sf row stn).1 (And.intro (rowBody_spec sf row stn).2.1
        (And.intro (rowBody_spec sf row stn).2.2.1
          (And.intro (rowBody_spec sf row stn).2.2.2.1
            (rowBody_spec sf row stn).2.2.2.2)))
    refine ⟨r1, ?_, ?_, ?_, ?_⟩
    · intro s' hs'
      refine ⟨r3 s' hs', ?_⟩
      have hsl : s'.sinceLast = stn.sinceLast := by rw [hs'] at r2; exact r2
      rw [hsl, if_neg hq]
    · intro k s' hk
      obtain ⟨hri, e, n, hke, hsf⟩ := r4 k s' hk
      exact ⟨hri, Or.inr ⟨e, n, hke, hsf⟩⟩
    · refine ⟨pre, hpre, fun e he => Or.inl (hok e he), ?_⟩
      rw [hqw, if_neg hq]
    · intro w hw
      rw [hpre] at hw
      rcases List.mem_append.mp hw with h | h
      · exact absurd (mem_queryWrittens h) (by rw [hqw]; simp)
      · exact Or.inl h

/-! ## Loop invariants -/

theorem writeLoop_spec (g : Nat → Bool) (sf : SinkCfg) (bs : Nat)
    (ff : Option PyExc) :
    ∀ (remaining : List (List PyVal)) (lib : Nat) (st : WState),
      st.totalRows ≤ st.rowIdx - 1 →
      st.rowIdx ≤ (writeLoop g sf bs ff remaining lib st).final.rowIdx ∧
      (writeLoop g sf bs ff remaining lib st).final.rowIdx ≤
        st.rowIdx + remaining.length ∧
      (∀ n, (writeLoop g sf bs ff remaining lib st).exit = .completed n →
        n = (writeLoop g sf bs ff remaining lib st).final.rowIdx - 1 ∧
        n = (writeLoop g sf bs ff remaining lib st).final.totalRows) ∧
      (∀ p, (writeLoop g sf bs ff remaining lib st).exit = .cancelledRun p →
        p = (writeLoop g sf bs ff remaining lib st).final.totalRows ∧
        p ≤ (writeLoop g sf bs ff remaining lib st).final.rowIdx - 1) ∧
      ((∀ w, Ev.gateQuery w true ∉ st.rev) →
        (∀ p, (writeLoop g sf bs ff remaining lib st).exit ≠ .cancelledRun p) →
        ∀ w, Ev.gateQuery w true ∉
          (writeLoop g sf bs ff remaining lib st).final.rev) := by
  intro remaining
  induction remaining with
  | nil =>
    intro lib st hinv
    cases hans : g (st.rowIdx - 1) with
    | true =>
      simp only [writeLoop, hans, eq_self_iff_true, if_true]
      refine ⟨le_refl _, by simp, ?_, ?_, ?_⟩
      · intro n hn
        exact nomatch hn
      · intro p hp
        simp only [ExitKind.cancelledRun.injEq] at hp
        subst hp
        exact ⟨rfl, le_refl _⟩
      · intro hno hnc w
        exact absurd rfl (hnc (st.rowIdx - 1))
    | false =>
      simp only [writeLoop, hans, Bool.false_eq_true, if_false]
      cases ff with
      | some e =>
        refine ⟨le_refl _, by simp, ?_, ?_, ?_⟩
        · intro n hn
          exact nomatch hn
        · intro p hp
          exact nomatch hp
        · intro hno hnc w hw
          simp only [List.mem_cons] at hw
          rcases hw with h | h
          · exact nomatch h
          · exact hno w h
      | none =>
        refine ⟨le_refl _, by simp, ?_, ?_, ?_⟩
        · intro n hn
          simp only [ExitKind.completed.injEq] at hn
          subst hn
          exact ⟨rfl, rfl⟩
        · intro p hp
          exact nomatch hp
        · intro hno hnc w hw
          simp only [List.mem_cons] at hw
          rcases hw with h | h | h
          · exact nomatch h
          · exact nomatch h
          · exact hno w h
  | cons row rest ih =>
    intro lib st hinv
    obtain ⟨prA, prB, prC, _, prE⟩ := processRow_spec g sf row st
    cases lib with
    | succ l =>
      cases hpr : processRow g sf row st with
      | cont st' =>
        rw [hpr] at prA
        simp only [StepRes.st] at prA
        obtain ⟨hri', _⟩ := prB st' hpr
        have hinv' : st'.totalRows ≤ st'.rowIdx - 1 := by omega
        obtain ⟨ihA, ihB, ihC, ihD, ihE⟩ := ih l st' hinv'
        have hred : writeLoop g sf bs ff (row :: rest) (l + 1) st =
            writeLoop g sf bs ff rest l st' := by
          show (match processRow g sf row st with
            | .halted k s => RunResult.mk k s
            | .cont st' => writeLoop g sf bs ff rest l st') = _
          rw [hpr]
        rw [hred]
        refine ⟨by omega, by simp only [List.length_cons]; omega, ihC, ihD, ?_⟩
        intro hno hnc w
        refine ihE ?_ hnc w
        intro w' hw'
        rcases prE w' (by rw [hpr]; exact hw') with h | ⟨p, s', hps⟩
        · exact hno w' h
        · rw [hpr] at hps
          exact nomatch hps
      | halted k s' =>
        rw [hpr] at prA
        simp only [StepRes.st] at prA
        obtain ⟨hri', hkind⟩ := prC k s' hpr
        have hred : writeLoop g sf bs ff (row :: rest) (l + 1) st =
            RunResult.mk k s' := by
          show (match processRow g sf row st with
            | .halted k s => RunResult.mk k s
            | .cont st' => writeLoop g sf bs ff rest l st') = _
          rw [hpr]
        rw [hred]
        dsimp only
        refine ⟨by omega, by simp only [List.length_cons]; omega, ?_, ?_, ?_⟩
        · intro n hn
          rcases hkind with h | ⟨e, m, h, _⟩
          · subst h
            exact nomatch hn
          · subst h
            exact nomatch hn
        · intro p hp
          rcases hkind with h | ⟨e, m, h, _⟩
          · subst h
            simp only [ExitKind.cancelledRun.injEq] at hp
            subst hp
            exact ⟨prA.symm, by omega⟩
          · subst h
            exact nomatch hp
        · intro hno hnc w hw
          rcases hkind with h | ⟨e, m, h, _⟩
          · subst h
            exact absurd rfl (hnc st.totalRows)
          · subst h
            rcases prE w (by rw [hpr]; exact hw) with hmem | ⟨p, s'', hps⟩
            · exact hno w hmem
            · rw [hpr] at hps
              simp only [StepRes.halted.injEq] at hps
              exact nomatch hps.1
    | zero =>
      cases hans : g (st.rowIdx - 1) with
      | true =>
        simp only [writeLoop, hans, eq_self_iff_true, if_true]
        refine ⟨le_refl _, by simp, ?_, ?_, ?_⟩
        · intro n hn
          exact nomatch hn
        · intro p hp
          simp only [ExitKind.cancelledRun.injEq] at hp
          subst hp
          exact ⟨rfl, le_refl _⟩
        · intro hno hnc w
          exact absurd rfl (hnc (st.rowIdx - 1))
      | false =>
        cases bs with
        | zero =>
          simp only [writeLoop, hans, Bool.false_eq_true, if_false]
          refine ⟨le_refl _, by simp, ?_, ?_, ?_⟩
          · intro n hn
            simp only [ExitKind.completed.injEq] at hn
            subst hn
            exact ⟨rfl, rfl⟩
          · intro p hp
            exact nomatch hp
          · intro hno hnc w hw
            simp only [List.mem_cons] at hw
            rcases hw with h | h | h
            · exact nomatch h
            · exact nomatch h
            · exact hno w h
        | succ bs' =>
          obtain ⟨qrA, qrB, qrC, _, qrE⟩ := processRow_spec g sf row
            ⟨st.rowIdx, st.rowIdx - 1, st.sinceLast, st.sinkCalls,
              .fetch :: .gateQuery (st.rowIdx - 1) false :: st.rev⟩
          have hred0 : ∀ res : RunResult,
              (match processRow g sf row
                  ⟨st.rowIdx, st.rowIdx - 1, st.sinceLast, st.sinkCalls,
                    .fetch :: .gateQuery (st.rowIdx - 1) false :: st.rev⟩ with
                | .halted k s => RunResult.mk k s
                | .cont st' => writeLoop g sf (bs' + 1) ff rest bs' st') = res →
              writeLoop g sf (bs' + 1) ff (row :: rest) 0 st = res := by
            intro res hres
            simp only [writeLoop, hans, Bool.false_eq_true, if_false]
            exact hres
          cases hpr : processRow g sf row
              ⟨st.rowIdx, st.rowIdx - 1, st.sinceLast, st.sinkCalls,
                .fetch :: .gateQuery (st.rowIdx - 1) false :: st.rev⟩ with
          | cont st' =>
            rw [hpr] at qrA
            simp only [StepRes.st] at qrA
            obtain ⟨hri', _⟩ := qrB st' hpr
            dsimp only at qrA hri'
            have hinv' : st'.totalRows ≤ st'.rowIdx - 1 := by omega
            obtain ⟨ihA, ihB, ihC, ihD, ihE⟩ := ih bs' st' hinv'
            have hred : writeLoop g sf (bs' + 1) ff (row :: rest) 0 st =
                writeLoop g sf (bs' + 1) ff rest bs' st' := by
              apply hred0
              rw [hpr]
            rw [hred]
            refine ⟨by omega, by simp only [List.length_cons]; omega, ihC, ihD, ?_⟩
            intro hno hnc w
            refine ihE ?_ hnc w
            intro w' hw'
            rcases qrE w' (by rw [hpr]; exact hw') with h | ⟨p, s'', hps⟩
            · simp only [List.mem_cons] at h
              rcases h with h | h | h
              · exact nomatch h
              · exact nomatch h
              · exact hno w' h
            · rw [hpr] at hps
              exact nomatch hps
          | halted k s' =>
            rw [hpr] at qrA
            simp only [StepRes.st] at qrA
            obtain ⟨hri', hkind⟩ := qrC k s' hpr
            dsimp only at qrA hri' hkind
            have hred : writeLoop g sf (bs' + 1) ff (row :: rest) 0 st =
                RunResult.mk k s' := by
              apply hred0
              rw [hpr]
            rw [hred]
            dsimp only
            refine ⟨by omega, by simp only [List.length_cons]; omega, ?_, ?_, ?_⟩
            · intro n hn
              rcases hkind with h | ⟨e, m, h, _⟩
              · subst h
                exact nomatch hn
              · subst h
                exact nomatch hn
            · intro p hp
              rcases hkind with h | ⟨e, m, h, _⟩
              · subst h
                simp only [ExitKind.cancelledRun.injEq] at hp
                subst hp
                exact ⟨qrA.symm, by omega⟩
              · subst h
                exact nomatch hp
            · intro hno hnc w hw
              rcases hkind with h | ⟨e, m, h, _⟩
              · subst h
                exact absurd rfl (hnc (st.rowIdx - 1))
              · subst h
                rcases qrE w (by rw [hpr]; exact hw) with hmem | ⟨p, s'', hps⟩
                · simp only [List.mem_cons] at hmem
                  rcases hmem with h | h | h
                  · exact nomatch h
                  · exact nomatch h
                  · exact hno w h
                · rw [hpr] at hps
                  simp only [StepRes.halted.injEq] at hps
                  exact nomatch hps.1

theorem newEvOK_mono {lo hi lo' hi' : Nat} {e : Ev} (hlo : lo' ≤ lo)
    (hhi : hi ≤ hi') (h : newEvOK lo hi e = true) : newEvOK lo' hi' e = true := by
  cases e with
  | cell r c v sty =>
    simp only [newEvOK, Bool.and_eq_true, decide_eq_true_eq] at h ⊢
    exact ⟨⟨h.1.1, by omega⟩, by omega⟩
  | rowHeight r hh =>
    simp only [newEvOK, Bool.and_eq_true, decide_eq_true_eq] at h ⊢
    exact ⟨⟨h.1.1, by omega⟩, by omega⟩
  | gateQuery w a => exact nomatch h
  | fetch => exact nomatch h

/-- Every event in the final trace of the data loop is either an initial
event, a well-formed sink call (styled per `styleFor`, at a data row between
the starting and final `row_idx`), a gate query, or a fetch. -/
theorem writeLoop_trace (g : Nat → Bool) (sf : SinkCfg) (bs : Nat)
    (ff : Option PyExc) :
    ∀ (remaining : List (List PyVal)) (lib : Nat) (st : WState),
      st.rowIdx ≤ (writeLoop g sf bs ff remaining lib st).final.rowIdx ∧
      ∀ e ∈ (writeLoop g sf bs ff remaining lib st).final.rev,
        e ∈ st.rev ∨
        newEvOK st.rowIdx (writeLoop g sf bs ff remaining lib st).final.rowIdx e
          = true ∨
        (∃ w a, e = .gateQuery w a) ∨ e = .fetch := by
  intro remaining
  induction remaining with
  | nil =>
    intro lib st
    cases hans : g (st.rowIdx - 1) with
    | true =>
      simp only [writeLoop, hans, eq_self_iff_true, if_true]
      refine ⟨le_refl _, ?_⟩
      intro e he
      simp only [List.mem_cons] at he
      rcases he with h | h
      · exact Or.inr (Or.inr (Or.inl ⟨st.rowIdx - 1, true, h⟩))
      · exact Or.inl h
    | false =>
      simp only [writeLoop, hans, Bool.false_eq_true, if_false]
      cases ff with
      | some e0 =>
        refine ⟨le_refl _, ?_⟩
        intro e he
        simp only [List.mem_cons] at he
        rcases he with h | h
        · exact Or.inr (Or.inr (Or.inl ⟨st.rowIdx - 1, false, h⟩))
        · exact Or.inl h
      | none =>
        refine ⟨le_refl _, ?_⟩
        intro e he
        simp only [List.mem_cons] at he
        rcases he with h | h | h
        · exact Or.inr (Or.inr (Or.inr h))
        · exact Or.inr (Or.inr (Or.inl ⟨st.rowIdx - 1, false, h⟩))
        · exact Or.inl h
  | cons row rest ih =>
    intro lib st
    obtain ⟨prA, prB, prC, ⟨pre, hpre, hok, _⟩, _⟩ := processRow_spec g sf row st
    cases lib with
    | succ l =>
      cases hpr : processRow g sf row st with
      | cont st' =>
        rw [hpr] at hpre
        simp only [StepRes.st] at hpre
        obtain ⟨hri', _⟩ := prB st' hpr
        obtain ⟨ihA, ihB⟩ := ih l st'
        have hred : writeLoop g sf bs ff (row :: rest) (l + 1) st =
            writeLoop g sf bs ff rest l st' := by
          show (match processRow g sf row st with
            | .halted k s => RunResult.mk k s
            | .cont st' => writeLoop g sf bs ff rest l st') = _
          rw [hpr]
        rw [hred]
        refine ⟨by omega, ?_⟩
        intro e he
        rcases ihB e he with h | h | h | h
        · rw [hpre] at h
          rcases List.mem_append.mp h with h' | h'
          · rcases hok e h' with hOK | hq
            · exact Or.inr (Or.inl (newEvOK_mono (le_refl _) (by omega) hOK))
            · exact Or.inr (Or.inr (Or.inl ⟨st.rowIdx - 1, g (st.rowIdx - 1), hq⟩))
          · exact Or.inl h'
        · exact Or.inr (Or.inl (newEvOK_mono (by omega) (le_refl _) h))
        · exact Or.inr (Or.inr (Or.inl h))
        · exact Or.inr (Or.inr (Or.inr h))
      | halted k s' =>
        rw [hpr] at hpre
        simp only [StepRes.st] at hpre
        obtain ⟨hri', _⟩ := prC k s' hpr
        have hred : writeLoop g sf bs ff (row :: rest) (l + 1) st =
            RunResult.mk k s' := by
          show (match processRow g sf row st with
            | .halted k s => RunResult.mk k s
            | .cont st' => writeLoop g sf bs ff rest l st') = _
          rw [hpr]
        rw [hred]
        dsimp only
        refine ⟨by omega, ?_⟩
        intro e he
        rw [hpre] at he
        rcases List.mem_append.mp he with h' | h'
        · rcases hok e h' with hOK | hq
          · exact Or.inr (Or.inl (newEvOK_mono (le_refl _) (by omega) hOK))
          · exact Or.inr (Or.inr (Or.inl ⟨st.rowIdx - 1, g (st.rowIdx - 1), hq⟩))
        · exact Or.inl h'
    | zero =>
      cases hans : g (st.rowIdx - 1) with
      | true =>
        simp only [writeLoop, hans, eq_self_iff_true, if_true]
        refine ⟨le_refl _, ?_⟩
        intro e he
        simp only [List.mem_cons] at he
        rcases he with h | h
        · exact Or.inr (Or.inr (Or.inl ⟨st.rowIdx - 1, true, h⟩))
        · exact Or.inl h
      | false =>
        cases bs with
        | zero =>
          simp only [writeLoop, hans, Bool.false_eq_true, if_false]
          refine ⟨le_refl _, ?_⟩
          intro e he
          simp only [List.mem_cons] at he
          rcases he with h | h | h
          · exact Or.inr (Or.inr (Or.inr h))
          · exact Or.inr (Or.inr (Or.inl ⟨st.rowIdx - 1, false, h⟩))
          · exact Or.inl h
        | succ bs' =>
          obtain ⟨qrA, qrB, qrC, ⟨preq, hpreq, hokq, _⟩, _⟩ := processRow_spec g sf row
            ⟨st.rowIdx, st.rowIdx - 1, st.sinceLast, st.sinkCalls,
              .fetch :: .gateQuery (st.rowIdx - 1) false :: st.rev⟩
          have hred0 : ∀ res : RunResult,
              (match processRow g sf row
                  ⟨st.rowIdx, st.rowIdx - 1, st.sinceLast, st.sinkCalls,
                    .fetch :: .gateQuery (st.rowIdx - 1) false :: st.rev⟩ with
                | .halted k s => RunResult.mk k s
                | .cont st' => writeLoop g sf (bs' + 1) ff rest bs' st') = res →
              writeLoop g sf (bs' + 1) ff (row :: rest) 0 st = res := by
            intro res hres
            simp only [writeLoop, hans, Bool.false_eq_true, if_false]
            exact hres
          have hsplitF : ∀ e, e ∈ (List.cons Ev.fetch
              (.gateQuery (st.rowIdx - 1) false :: st.rev)) →
              e ∈ st.rev ∨ (∃ w a, e = .gateQuery w a) ∨ e = .fetch := by
            intro e he
            simp only [List.mem_cons] at he
            rcases he with h | h | h
            · exact Or.inr (Or.inr h)
            · exact Or.inr (Or.inl ⟨st.rowIdx - 1, false, h⟩)
            · exact Or.inl h
          cases hpr : processRow g sf row
              ⟨st.rowIdx, st.rowIdx - 1, st.sinceLast, st.sinkCalls,
                .fetch :: .gateQuery (st.rowIdx - 1) false :: st.rev⟩ with
          | cont st' =>
            rw [hpr] at hpreq
            simp only [StepRes.st] at hpreq
            obtain ⟨hri', _⟩ := qrB st' hpr
            dsimp only at hri' hpreq hokq
            obtain ⟨ihA, ihB⟩ := ih bs' st'
            have hred : writeLoop g sf (bs' + 1) ff (row :: rest) 0 st =
                writeLoop g sf (bs' + 1) ff rest bs' st' := by
              apply hred0
              rw [hpr]
            rw [hred]
            refine ⟨by omega, ?_⟩
            intro e he
            rcases ihB e he with h | h | h | h
            · rw [hpreq] at h
              rcases List.mem_append.mp h with h' | h'
              · rcases hokq e h' with hOK | hq
                · exact Or.inr (Or.inl (newEvOK_mono (le_refl _) (by omega) hOK))
                · exact Or.inr (Or.inr (Or.inl ⟨st.rowIdx - 1,
                    g (st.rowIdx - 1), hq⟩))
              · rcases hsplitF e h' with hm | hm | hm
                · exact Or.inl hm
                · exact Or.inr (Or.inr (Or.inl hm))
                · exact Or.inr (Or.inr (Or.inr hm))
            · exact Or.inr (Or.inl (newEvOK_mono (by omega) (le_refl _) h))
            · exact Or.inr (Or.inr (Or.inl h))
            · exact Or.inr (Or.inr (Or.inr h))
          | halted k s' =>
            rw [hpr] at hpreq
            simp only [StepRes.st] at hpreq
            obtain ⟨hri', _⟩ := qrC k s' hpr
            dsimp only at hri' hpreq hokq
            have hred : writeLoop g sf (bs' + 1) ff (row :: rest) 0 st =
                RunResult.mk k s' := by
              apply hred0
              rw [hpr]
            rw [hred]
            dsimp only
            refine ⟨by omega, ?_⟩
            intro e he
            rw [hpreq] at he
            rcases List.mem_append.mp he with h' | h'
            · rcases hokq e h' with hOK | hq
              · exact Or.inr (Or.inl (newEvOK_mono (le_refl _) (by omega) hOK))
              · exact Or.inr (Or.inr (Or.inl ⟨st.rowIdx - 1,
                  g (st.rowIdx - 1), hq⟩))
            · rcases hsplitF e h' with hm | hm | hm
              · exact Or.inl hm
              · exact Or.inr (Or.inr (Or.inl hm))
              · exact Or.inr (Or.inr (Or.inr hm))

theorem revFetchOK_extend {pre rev : List Ev}
    (h : ∀ e ∈ pre, e ≠ Ev.fetch) :
    revFetchOK (pre ++ rev) = revFetchOK rev := by
  induction pre with
  | nil => rfl
  | cons e pre ih =>
    have hne : e ≠ Ev.fetch := h e (List.mem_cons_self e pre)
    have hih : revFetchOK (pre ++ rev) = revFetchOK rev :=
      ih fun e' he' => h e' (List.mem_cons_of_mem e he')
    cases e with
    | cell r c v sty =>
      simp only [List.cons_append, revFetchOK]
      exact hih
    | rowHeight r hh =>
      simp only [List.cons_append, revFetchOK]
      exact hih
    | gateQuery w a =>
      simp only [List.cons_append, revFetchOK]
      exact hih
    | fetch => exact absurd rfl hne

theorem revFetchOK_query {rev : List Ev} {w : Nat} {a : Bool} :
    revFetchOK (Ev.gateQuery w a :: rev) = revFetchOK rev := rfl

theorem revFetchOK_fetch {rev : List Ev} {w : Nat} :
    revFetchOK (Ev.fetch :: Ev.gateQuery w false :: rev) = revFetchOK rev := by
  simp only [revFetchOK, Bool.true_and]

theorem processRow_no_fetch {a b w : Nat} {ans : Bool} {pre : List Ev}
    (hok : ∀ e ∈ pre, newEvOK a b e = true ∨ e = .gateQuery w ans) :
    ∀ e ∈ pre, e ≠ Ev.fetch := by
  intro e he hfe
  subst hfe
  rcases hok _ he with h | h
  · exact nomatch h
  · exact nomatch h

/-- Every fetch the loop performs is chronologically immediately preceded by
a gate query answering `false`. -/
theorem writeLoop_fetchOK (g : Nat → Bool) (sf : SinkCfg) (bs : Nat)
    (ff : Option PyExc) :
    ∀ (remaining : List (List PyVal)) (lib : Nat) (st : WState),
      revFetchOK st.rev = true →
      revFetchOK (writeLoop g sf bs ff remaining lib st).final.rev = true := by
  intro remaining
  induction remaining with
  | nil =>
    intro lib st h0
    cases hans : g (st.rowIdx - 1) with
    | true =>
      simp only [writeLoop, hans, eq_self_iff_true, if_true]
      rw [revFetchOK_query]
      exact h0
    | false =>
      simp only [writeLoop, hans, Bool.false_eq_true, if_false]
      cases ff with
      | some e0 =>
        rw [revFetchOK_query]
        exact h0
      | none =>
        rw [revFetchOK_fetch]
        exact h0
  | cons row rest ih =>
    intro lib st h0
    obtain ⟨_, _, _, ⟨pre, hpre, hok, _⟩, _⟩ := processRow_spec g sf row st
    cases lib with
    | succ l =>
      cases hpr : processRow g sf row st with
      | cont st' =>
        rw [hpr] at hpre
        simp only [StepRes.st] at hpre
        have hred : writeLoop g sf bs ff (row :: rest) (l + 1) st =
            writeLoop g sf bs ff rest l st' := by
          show (match processRow g sf row st with
            | .halted k s => RunResult.mk k s
            | .cont st' => writeLoop g sf bs ff rest l st') = _
          rw [hpr]
        rw [hred]
        refine ih l st' ?_
        rw [hpre, revFetchOK_extend (processRow_no_fetch hok)]
        exact h0
      | halted k s' =>
        rw [hpr] at hpre
        simp only [StepRes.st] at hpre
        have hred : writeLoop g sf bs ff (row :: rest) (l + 1) st =
            RunResult.mk k s' := by
          show (match processRow g sf row st with
            | .halted k s => RunResult.mk k s
            | .cont st' => writeLoop g sf bs ff rest l st') = _
          rw [hpr]
        rw [hred]
        dsimp only
        rw [hpre, revFetchOK_extend (processRow_no_fetch hok)]
        exact h0
    | zero =>
      cases hans : g (st.rowIdx - 1) with
      | true =>
        simp only [writeLoop, hans, eq_self_iff_true, if_true]
        rw [revFetchOK_query]
        exact h0
      | false =>
        cases bs with
        | zero =>
          simp only [writeLoop, hans, Bool.false_eq_true, if_false]
          rw [revFetchOK_fetch]
          exact h0
        | succ bs' =>
          obtain ⟨_, _, _, ⟨preq, hpreq, hokq, _⟩, _⟩ := processRow_spec g sf row
            ⟨st.rowIdx, st.rowIdx - 1, st.sinceLast, st.sinkCalls,
              .fetch :: .gateQuery (st.rowIdx - 1) false :: st.rev⟩
          have hF : revFetchOK (Ev.fetch ::
              Ev.gateQuery (st.rowIdx - 1) false :: st.rev) = true := by
            rw [revFetchOK_fetch]
            exact h0
          have hred0 : ∀ res : RunResult,
              (match processRow g sf row
                  ⟨st.rowIdx, st.rowIdx - 1, st.sinceLast, st.sinkCalls,
                    .fetch :: .gateQuery (st.rowIdx - 1) false :: st.rev⟩ with
                | .halted k s => RunResult.mk k s
                | .cont st' => writeLoop g sf (bs' + 1) ff rest bs' st') = res →
              writeLoop g sf (bs' + 1) ff (row :: rest) 0 st = res := by
            intro res hres
            simp only [writeLoop, hans, Bool.false_eq_true, if_false]
            exact hres
          cases hpr : processRow g sf row
              ⟨st.rowIdx, st.rowIdx - 1, st.sinceLast, st.sinkCalls,
                .fetch :: .gateQuery (st.rowIdx - 1) false :: st.rev⟩ with
          | cont st' =>
            rw [hpr] at hpreq
            simp only [StepRes.st] at hpreq
            dsimp only at hpreq hokq
            have hred : writeLoop g sf (bs' + 1) ff (row :: rest) 0 st =
                writeLoop g sf (bs' + 1) ff rest bs' st' := by
              apply hred0
              rw [hpr]
            rw [hred]
            refine ih bs' st' ?_
            rw [hpreq, revFetchOK_extend (processRow_no_fetch hokq)]
            exact hF
          | halted k s' =>
            rw [hpr] at hpreq
            simp only [StepRes.st] at hpreq
            dsimp only at hpreq hokq
            have hred : writeLoop g sf (bs' + 1) ff (row :: rest) 0 st =
                RunResult.mk k s' := by
              apply hred0
              rw [hpr]
            rw [hred]
            dsimp only
            rw [hpreq, revFetchOK_extend (processRow_no_fetch hokq)]
            exact hF

theorem cadence_decomp : ∀ (qs : List Nat) (prev total : Nat),
    cadenceOK prev qs total =
      (gapsOK prev qs && decide (total ≤ lastD prev qs + 1000)) := by
  intro qs
  induction qs with
  | nil =>
    intro prev total
    simp [cadenceOK, gapsOK, lastD]
  | cons q qs ih =>
    intro prev total
    simp only [cadenceOK, gapsOK, lastD, ih, Bool.and_assoc]

theorem gapsOK_append1 : ∀ (qs : List Nat) (prev w : Nat),
    gapsOK prev (qs ++ [w]) =
      (gapsOK prev qs && decide (w ≤ lastD prev qs + 1000)) := by
  intro qs
  induction qs with
  | nil =>
    intro prev w
    simp [gapsOK, lastD]
  | cons q qs ih =>
    intro prev w
    show gapsOK prev ((q :: qs) ++ [w]) = _
    rw [List.cons_append]
    show (decide (q ≤ prev + 1000) && gapsOK q (qs ++ [w])) = _
    rw [ih q w]
    show _ = (decide (q ≤ prev + 1000) && gapsOK q qs && decide (w ≤ lastD q qs + 1000))
    rw [Bool.and_assoc]

theorem lastD_append1 : ∀ (qs : List Nat) (prev w : Nat),
    lastD prev (qs ++ [w]) = w := by
  intro qs
  induction qs with
  | nil => intro prev w; rfl
  | cons q qs ih => intro prev w; exact ih q w

theorem queryWrittens_reverse (l : List Ev) :
    queryWrittens l.reverse = (queryWrittens l).reverse := by
  unfold queryWrittens
  exact List.filterMap_reverse _ l

/-- The forward (chronological) gate-query positions of a reversed trace. -/
theorem forwardQs_extend (pre rev : List Ev) (qs : List Nat)
    (hpre : queryWrittens pre = qs) :
    queryWrittens (pre ++ rev).reverse = queryWrittens rev.reverse ++ qs.reverse := by
  rw [List.reverse_append, queryWrittens_append, queryWrittens_reverse,
    queryWrittens_reverse, hpre]

/-- Gate-consultation cadence: at most 1000 rows are written between
consecutive gate queries, and after the last one. -/
theorem writeLoop_cadence (g : Nat → Bool) (sf : SinkCfg) (bs : Nat)
    (ff : Option PyExc) :
    ∀ (remaining : List (List PyVal)) (lib : Nat) (st : WState) (L : Nat),
      gapsOK 0 (queryWrittens st.rev.reverse) = true →
      lastD 0 (queryWrittens st.rev.reverse) = L →
      st.sinceLast ≤ 999 →
      st.rowIdx - 1 ≤ L + st.sinceLast + 1 →
      gapsOK 0 (queryWrittens
        (writeLoop g sf bs ff remaining lib st).final.rev.reverse) = true ∧
      (writeLoop g sf bs ff remaining lib st).final.rowIdx - 1 ≤
        lastD 0 (queryWrittens
          (writeLoop g sf bs ff remaining lib st).final.rev.reverse) + 1000 := by
  intro remaining
  induction remaining with
  | nil =>
    intro lib st L h1 h2 h3 h4
    have hq : ∀ a : Bool, queryWrittens
        ((Ev.gateQuery (st.rowIdx - 1) a :: st.rev)).reverse =
        queryWrittens st.rev.reverse ++ [st.rowIdx - 1] := by
      intro a
      have := forwardQs_extend [Ev.gateQuery (st.rowIdx - 1) a]
        st.rev [st.rowIdx - 1] rfl
      simpa using this
    have hgaps : gapsOK 0 (queryWrittens st.rev.reverse ++ [st.rowIdx - 1]) = true := by
      rw [gapsOK_append1, h1, h2]
      simp only [Bool.true_and, decide_eq_true_eq]
      omega
    have hlast : lastD 0 (queryWrittens st.rev.reverse ++ [st.rowIdx - 1]) =
        st.rowIdx - 1 := lastD_append1 _ _ _
    cases hans : g (st.rowIdx - 1) with
    | true =>
      simp only [writeLoop, hans, eq_self_iff_true, if_true]
      rw [hq true, hlast]
      exact ⟨hgaps, by omega⟩
    | false =>
      simp only [writeLoop, hans, Bool.false_eq_true, if_false]
      cases ff with
      | some e0 =>
        dsimp only
        rw [hq false, hlast]
        exact ⟨hgaps, by omega⟩
      | none =>
        dsimp only
        have hqf : queryWrittens
            ((Ev.fetch :: Ev.gateQuery (st.rowIdx - 1) false :: st.rev)).reverse =
            queryWrittens st.rev.reverse ++ [st.rowIdx - 1] := by
          have := forwardQs_extend
            [Ev.fetch, Ev.gateQuery (st.rowIdx - 1) false]
            st.rev [st.rowIdx - 1] rfl
          simpa using this
        rw [hqf, hlast]
        exact ⟨hgaps, by omega⟩
  | cons row rest ih =>
    intro lib st L h1 h2 h3 h4
    obtain ⟨_, prB, prC, ⟨pre, hpre, _, hqw⟩, _⟩ := processRow_spec g sf row st
    cases lib with
    | succ l =>
      have hstep : ∀ s', processRow g sf row st = .cont s' →
          gapsOK 0 (queryWrittens s'.rev.reverse) = true ∧
          lastD 0 (queryWrittens s'.rev.reverse) =
            (if 1000 ≤ st.sinceLast + 1 then st.rowIdx - 1 else L) ∧
          s'.sinceLast ≤ 999 ∧
          s'.rowIdx - 1 ≤
            (if 1000 ≤ st.sinceLast + 1 then st.rowIdx - 1 else L) + s'.sinceLast + 1 := by
        intro s' hs'
        rw [hs'] at hpre
        simp only [StepRes.st] at hpre
        obtain ⟨hri', hsl'⟩ := prB s' hs'
        by_cases hcase : 1000 ≤ st.sinceLast + 1
        · rw [if_pos hcase] at hqw ⊢
          have hfq := forwardQs_extend pre st.rev _ hqw
          rw [hpre, hfq]
          simp only [List.reverse_singleton]
          rw [gapsOK_append1, lastD_append1, h1, h2]
          refine ⟨by simp only [Bool.true_and, decide_eq_true_eq]; omega, rfl, ?_, ?_⟩
          · rw [hsl', if_pos hcase]; omega
          · rw [hsl', if_pos hcase]; omega
        · rw [if_neg hcase] at hqw ⊢
          have hfq := forwardQs_extend pre st.rev _ hqw
          rw [hpre, hfq]
          simp only [List.reverse_nil, List.append_nil]
          refine ⟨h1, h2, ?_, ?_⟩
          · rw [hsl', if_neg hcase]; omega
          · rw [hsl', if_neg hcase]; omega
      cases hpr : processRow g sf row st with
      | cont st' =>
        obtain ⟨s1, s2, s3, s4⟩ := hstep st' hpr
        have hred : writeLoop g sf bs ff (row :: rest) (l + 1) st =
            writeLoop g sf bs ff rest l st' := by
          show (match processRow g sf row st with
            | .halted k s => RunResult.mk k s
            | .cont st' => writeLoop g sf bs ff rest l st') = _
          rw [hpr]
        rw [hred]
        exact ih l st' _ s1 s2 s3 s4
      | halted k s' =>
        rw [hpr] at hpre
        simp only [StepRes.st] at hpre
        obtain ⟨hri', _⟩ := prC k s' hpr
        have hred : writeLoop g sf bs ff (row :: rest) (l + 1) st =
            RunResult.mk k s' := by
          show (match processRow g sf row st with
            | .halted k s => RunResult.mk k s
            | .cont st' => writeLoop g sf bs ff rest l st') = _
          rw [hpr]
        rw [hred]
        dsimp only
        by_cases hcase : 1000 ≤ st.sinceLast + 1
        · rw [if_pos hcase] at hqw
          have hfq := forwardQs_extend pre st.rev _ hqw
          rw [hpre, hfq]
          simp only [List.reverse_singleton]
          rw [gapsOK_append1, lastD_append1, h1, h2]
          refine ⟨by simp only [Bool.true_and, decide_eq_true_eq]; omega, by omega⟩
        · rw [if_neg hcase] at hqw
          have hfq := forwardQs_extend pre st.rev _ hqw
          rw [hpre, hfq]
          simp only [List.reverse_nil, List.append_nil]
          rw [h2]
          exact ⟨h1, by omega⟩
    | zero =>
      have hgaps : gapsOK 0 (queryWrittens st.rev.reverse ++ [st.rowIdx - 1]) = true := by
        rw [gapsOK_append1, h1, h2]
        simp only [Bool.true_and, decide_eq_true_eq]
        omega
      have hlast : lastD 0 (queryWrittens st.rev.reverse ++ [st.rowIdx - 1]) =
          st.rowIdx - 1 := lastD_append1 _ _ _
      cases hans : g (st.rowIdx - 1) with
      | true =>
        simp only [writeLoop, hans, eq_self_iff_true, if_true]
        have hq : queryWrittens
            ((Ev.gateQuery (st.rowIdx - 1) true :: st.rev)).reverse =
            queryWrittens st.rev.reverse ++ [st.rowIdx - 1] := by
          have := forwardQs_extend [Ev.gateQuery (st.rowIdx - 1) true]
            st.rev [st.rowIdx - 1] rfl
          simpa using this
        rw [hq, hlast]
        exact ⟨hgaps, by omega⟩
      | false =>
        cases bs with
        | zero =>
          simp only [writeLoop, hans, Bool.false_eq_true, if_false]
          have hqf : queryWrittens
              ((Ev.fetch :: Ev.gateQuery (st.rowIdx - 1) false :: st.rev)).reverse =
              queryWrittens st.rev.reverse ++ [st.rowIdx - 1] := by
            have := forwardQs_extend
              [Ev.fetch, Ev.gateQuery (st.rowIdx - 1) false]
              st.rev [st.rowIdx - 1] rfl
            simpa using this
          rw [hqf, hlast]
          exact ⟨hgaps, by omega⟩
        | succ bs' =>
          obtain ⟨_, qrB, qrC, ⟨preq, hpreq, _, hqwq⟩, _⟩ := processRow_spec g sf row
            ⟨st.rowIdx, st.rowIdx - 1, st.sinceLast, st.sinkCalls,
              .fetch :: .gateQuery (st.rowIdx - 1) false :: st.rev⟩
          dsimp only at hqwq
          have hqF : queryWrittens
              ((Ev.fetch :: Ev.gateQuery (st.rowIdx - 1) false :: st.rev)).reverse =
              queryWrittens st.rev.reverse ++ [st.rowIdx - 1] := by
            have := forwardQs_extend
              [Ev.fetch, Ev.gateQuery (st.rowIdx - 1) false]
              st.rev [st.rowIdx - 1] rfl
            simpa using this
          have hred0 : ∀ res : RunResult,
              (match processRow g sf row
                  ⟨st.rowIdx, st.rowIdx - 1, st.sinceLast, st.sinkCalls,
                    .fetch :: .gateQuery (st.rowIdx - 1) false :: st.rev⟩ with
                | .halted k s => RunResult.mk k s
                | .cont st' => writeLoop g sf (bs' + 1) ff rest bs' st') = res →
              writeLoop g sf (bs' + 1) ff (row :: rest) 0 st = res := by
            intro res hres
            simp only [writeLoop, hans, Bool.false_eq_true, if_false]
            exact hres
          have hstepF : ∀ s', processRow g sf row
              ⟨st.rowIdx, st.rowIdx - 1, st.sinceLast, st.sinkCalls,
                .fetch :: .gateQuery (st.rowIdx - 1) false :: st.rev⟩ = .cont s' →
              gapsOK 0 (queryWrittens s'.rev.reverse) = true ∧
              lastD 0 (queryWrittens s'.rev.reverse) = st.rowIdx - 1 ∧
              s'.sinceLast ≤ 999 ∧
              s'.rowIdx - 1 ≤ (st.rowIdx - 1) + s'.sinceLast + 1 := by
            intro s' hs'
            rw [hs'] at hpreq
            simp only [StepRes.st] at hpreq
            obtain ⟨hri', hsl'⟩ := qrB s' hs'
            dsimp only at hri' hsl'
            by_cases hcase : 1000 ≤ st.sinceLast + 1
            · rw [if_pos hcase] at hqwq
              have hfq := forwardQs_extend preq
                (Ev.fetch :: Ev.gateQuery (st.rowIdx - 1) false :: st.rev) _ hqwq
              rw [hpreq, hfq, hqF]
              simp only [List.reverse_singleton]
              rw [gapsOK_append1, lastD_append1, gapsOK_append1, lastD_append1, h1, h2]
              refine ⟨?_, rfl, ?_, ?_⟩
              · simp only [Bool.true_and, Bool.and_eq_true, decide_eq_true_eq]
                omega
              · rw [hsl', if_pos hcase]; omega
              · rw [hsl', if_pos hcase]; omega
            · rw [if_neg hcase] at hqwq
              have hfq := forwardQs_extend preq
                (Ev.fetch :: Ev.gateQuery (st.rowIdx - 1) false :: st.rev) _ hqwq
              rw [hpreq, hfq, hqF]
              simp only [List.reverse_nil, List.append_nil]
              rw [gapsOK_append1, lastD_append1, h1, h2]
              refine ⟨?_, rfl, ?_, ?_⟩
              · simp only [Bool.true_and, decide_eq_true_eq]
                omega
              · rw [hsl', if_neg hcase]; omega
              · rw [hsl', if_neg hcase]; omega
          cases hpr : processRow g sf row
              ⟨st.rowIdx, st.rowIdx - 1, st.sinceLast, st.sinkCalls,
                .fetch :: .gateQuery (st.rowIdx - 1) false :: st.rev⟩ with
          | cont st' =>
            obtain ⟨s1, s2, s3, s4⟩ := hstepF st' hpr
            have hred : writeLoop g sf (bs' + 1) ff (row :: rest) 0 st =
                writeLoop g sf (bs' + 1) ff rest bs' st' := by
              apply hred0
              rw [hpr]
            rw [hred]
            exact ih bs' st' (st.rowIdx - 1) s1 s2 s3 s4
          | halted k s' =>
            rw [hpr] at hpreq
            simp only [StepRes.st] at hpreq
            obtain ⟨hri', _⟩ := qrC k s' hpr
            dsimp only at hri'
            have hred : writeLoop g sf (bs' + 1) ff (row :: rest) 0 st =
                RunResult.mk k s' := by
              apply hred0
              rw [hpr]
            rw [hred]
            dsimp only
            by_cases hcase : 1000 ≤ st.sinceLast + 1
            · rw [if_pos hcase] at hqwq
              have hfq := forwardQs_extend preq
                (Ev.fetch :: Ev.gateQuery (st.rowIdx - 1) false :: st.rev) _ hqwq
              rw [hpreq, hfq, hqF]
              simp only [List.reverse_singleton]
              rw [gapsOK_append1, lastD_append1, gapsOK_append1, lastD_append1, h1, h2]
              refine ⟨?_, by omega⟩
              simp only [Bool.true_and, Bool.and_eq_true, decide_eq_true_eq]
              omega
            · rw [if_neg hcase] at hqwq
              have hfq := forwardQs_extend preq
                (Ev.fetch :: Ev.gateQuery (st.rowIdx - 1) false :: st.rev) _ hqwq
              rw [hpreq, hfq, hqF]
              simp only [List.reverse_nil, List.append_nil]
              rw [gapsOK_append1, lastD_append1, h1, h2]
              refine ⟨?_, by omega⟩
              simp only [Bool.true_and, decide_eq_true_eq]
              omega

theorem writeCells_cont_head (sf : SinkCfg) (ri : Nat) (v : PyVal)
    (vs : List PyVal) : ∀ colIdx st s',
    writeCells sf ri colIdx (v :: vs) st = .cont s' →
    Ev.cell ri colIdx v (styleFor colIdx v) ∈ s'.rev := by
  intro colIdx st s' h
  rcases sinkCall_spec sf (.cell ri colIdx v (styleFor colIdx v)) st with
    ⟨st1, hok, _, _, _, hrev⟩ | ⟨exc, n, herr, _⟩
  · unfold writeCells at h
    rw [hok] at h
    dsimp only at h
    obtain ⟨_, _, _, ⟨pre, hpre, _⟩, _⟩ := writeCells_spec sf ri vs (colIdx + 1) st1
    rw [h] at hpre
    simp only [StepRes.st] at hpre
    rw [hpre, hrev]
    exact List.mem_append_right _ (List.mem_cons_self _ _)
  · unfold writeCells at h
    rw [herr] at h
    dsimp only at h
    exact nomatch h

theorem rowBody_cont_cell (sf : SinkCfg) (v : PyVal) (vs : List PyVal)
    (st : WState) (s' : WState) (h : rowBody sf (v :: vs) st = .cont s') :
    Ev.cell st.rowIdx 0 v (styleFor 0 v) ∈ s'.rev := by
  unfold rowBody at h
  by_cases h10 : st.rowIdx % 10 == 0
  · rw [if_pos h10] at h
    rcases sinkCall_spec sf (.rowHeight st.rowIdx 15) st with
      ⟨st1, hok, hri, _, _, _⟩ | ⟨exc, n, herr, _⟩
    · rw [hok] at h
      dsimp only at h
      cases hwc : writeCells sf st.rowIdx 0 (v :: vs) st1 with
      | cont st2 =>
        rw [hwc] at h
        dsimp only at h
        simp only [StepRes.cont.injEq] at h
        subst h
        exact writeCells_cont_head sf st.rowIdx v vs 0 st1 st2 hwc
      | halted k s2 =>
        rw [hwc] at h
        dsimp only at h
        exact nomatch h
    · rw [herr] at h
      dsimp only at h
      exact nomatch h
  · rw [if_neg h10] at h
    dsimp only at h
    cases hwc : writeCells sf st.rowIdx 0 (v :: vs) st with
    | cont st2 =>
      rw [hwc] at h
      dsimp only at h
      simp only [StepRes.cont.injEq] at h
      subst h
      exact writeCells_cont_head sf st.rowIdx v vs 0 st st2 hwc
    | halted k s2 =>
      rw [hwc] at h
      dsimp only at h
      exact nomatch h

theorem processRow_cont_cell (g : Nat → Bool) (sf : SinkCfg) (v : PyVal)
    (vs : List PyVal) (st : WState) (s' : WState)
    (h : processRow g sf (v :: vs) st = .cont s') :
    ∃ co vv sty, Ev.cell st.rowIdx co vv sty ∈ s'.rev := by
  unfold processRow at h
  by_cases hq : st.sinceLast + 1 ≥ 1000
  · rw [if_pos hq] at h
    dsimp only at h
    cases hg : g (st.rowIdx - 1) with
    | true =>
      rw [hg] at h
      simp only [if_true] at h
      exact nomatch h
    | false =>
      rw [hg] at h
      simp only [Bool.false_eq_true, if_false] at h
      exact ⟨0, v, styleFor 0 v, rowBody_cont_cell sf v vs
        ⟨st.rowIdx, st.totalRows, 0, st.sinkCalls,
          .gateQuery (st.rowIdx - 1) false :: st.rev⟩ s' h⟩
  · rw [if_neg hq] at h
    exact ⟨0, v, styleFor 0 v, rowBody_cont_cell sf v vs
      ⟨st.rowIdx, st.totalRows, st.sinceLast + 1, st.sinkCalls, st.rev⟩ s' h⟩

/-- Trace monotonicity and row coverage: events persist, and when every
remaining row is non-empty, every row index from 1 up to the final
`row_idx - 1` has at least one cell written. -/
theorem writeLoop_coverage (g : Nat → Bool) (sf : SinkCfg) (bs : Nat)
    (ff : Option PyExc) :
    ∀ (remaining : List (List PyVal)) (lib : Nat) (st : WState),
      (∀ e ∈ st.rev, e ∈ (writeLoop g sf bs ff remaining lib st).final.rev) ∧
      (allRowsNonempty remaining = true →
        (∀ j, 1 ≤ j → j ≤ st.rowIdx - 1 →
          ∃ co v sty, Ev.cell j co v sty ∈ st.rev) →
        ∀ j, 1 ≤ j → j ≤ (writeLoop g sf bs ff remaining lib st).final.rowIdx - 1 →
          ∃ co v sty, Ev.cell j co v sty ∈
            (writeLoop g sf bs ff remaining lib st).final.rev) := by
  intro remaining
  induction remaining with
  | nil =>
    intro lib st
    cases hans : g (st.rowIdx - 1) with
    | true =>
      simp only [writeLoop, hans, eq_self_iff_true, if_true]
      refine ⟨fun e he => List.mem_cons_of_mem _ he, ?_⟩
      intro _ hcov j hj1 hj2
      obtain ⟨co, v, sty, hm⟩ := hcov j hj1 hj2
      exact ⟨co, v, sty, List.mem_cons_of_mem _ hm⟩
    | false =>
      simp only [writeLoop, hans, Bool.false_eq_true, if_false]
      cases ff with
      | some e0 =>
        dsimp only
        refine ⟨fun e he => List.mem_cons_of_mem _ he, ?_⟩
        intro _ hcov j hj1 hj2
        obtain ⟨co, v, sty, hm⟩ := hcov j hj1 hj2
        exact ⟨co, v, sty, List.mem_cons_of_mem _ hm⟩
      | none =>
        dsimp only
        refine ⟨fun e he =>
          List.mem_cons_of_mem _ (List.mem_cons_of_mem _ he), ?_⟩
        intro _ hcov j hj1 hj2
        obtain ⟨co, v, sty, hm⟩ := hcov j hj1 hj2
        exact ⟨co, v, sty,
          List.mem_cons_of_mem _ (List.mem_cons_of_mem _ hm)⟩
  | cons row rest ih =>
    intro lib st
    obtain ⟨_, prB, prC, ⟨pre, hpre, _, _⟩, _⟩ := processRow_spec g sf row st
    have hmemext : ∀ (s2 : WState), s2.rev = pre ++ st.rev →
        ∀ e ∈ st.rev, e ∈ s2.rev := by
      intro s2 h2 e he
      rw [h2]
      exact List.mem_append_right _ he
    cases lib with
    | succ l =>
      cases hpr : processRow g sf row st with
      | cont st' =>
        rw [hpr] at hpre
        simp only [StepRes.st] at hpre
        obtain ⟨hri', _⟩ := prB st' hpr
        obtain ⟨ihM, ihC⟩ := ih l st'
        have hred : writeLoop g sf bs ff (row :: rest) (l + 1) st =
            writeLoop g sf bs ff rest l st' := by
          show (match processRow g sf row st with
            | .halted k s => RunResult.mk k s
            | .cont st' => writeLoop g sf bs ff rest l st') = _
          rw [hpr]
        rw [hred]
        refine ⟨fun e he => ihM e (hmemext st' hpre e he), ?_⟩
        intro hne hcov
        simp only [allRowsNonempty, List.all_cons, Bool.and_eq_true] at hne
        obtain ⟨hrow, hrest⟩ := hne
        cases row with
        | nil => exact nomatch hrow
        | cons v vs =>
          refine ihC hrest ?_
          intro j hj1 hj2
          rw [hri'] at hj2
          rcases Nat.lt_or_ge j st.rowIdx with hlt | hge
          · obtain ⟨co, v0, sty, hm⟩ := hcov j hj1 (by omega)
            exact ⟨co, v0, sty, hmemext st' hpre _ hm⟩
          · have hj : j = st.rowIdx := by omega
            subst hj
            exact processRow_cont_cell g sf v vs st st' hpr
      | halted k s' =>
        rw [hpr] at hpre
        simp only [StepRes.st] at hpre
        obtain ⟨hri', _⟩ := prC k s' hpr
        have hred : writeLoop g sf bs ff (row :: rest) (l + 1) st =
            RunResult.mk k s' := by
          show (match processRow g sf row st with
            | .halted k s => RunResult.mk k s
            | .cont st' => writeLoop g sf bs ff rest l st') = _
          rw [hpr]
        rw [hred]
        dsimp only
        refine ⟨hmemext s' hpre, ?_⟩
        intro _ hcov j hj1 hj2
        rw [hri'] at hj2
        obtain ⟨co, v0, sty, hm⟩ := hcov j hj1 hj2
        exact ⟨co, v0, sty, hmemext s' hpre _ hm⟩
    | zero =>
      cases hans : g (st.rowIdx - 1) with
      | true =>
        simp only [writeLoop, hans, eq_self_iff_true, if_true]
        refine ⟨fun e he => List.mem_cons_of_mem _ he, ?_⟩
        intro _ hcov j hj1 hj2
        obtain ⟨co, v, sty, hm⟩ := hcov j hj1 hj2
        exact ⟨co, v, sty, List.mem_cons_of_mem _ hm⟩
      | false =>
        cases bs with
        | zero =>
          simp only [writeLoop, hans, Bool.false_eq_true, if_false]
          refine ⟨fun e he =>
            List.mem_cons_of_mem _ (List.mem_cons_of_mem _ he), ?_⟩
          intro _ hcov j hj1 hj2
          obtain ⟨co, v, sty, hm⟩ := hcov j hj1 hj2
          exact ⟨co, v, sty,
            List.mem_cons_of_mem _ (List.mem_cons_of_mem _ hm)⟩
        | succ bs' =>
          obtain ⟨_, qrB, qrC, ⟨preq, hpreq, _, _⟩, _⟩ := processRow_spec g sf row
            ⟨st.rowIdx, st.rowIdx - 1, st.sinceLast, st.sinkCalls,
              .fetch :: .gateQuery (st.rowIdx - 1) false :: st.rev⟩
          have hmemF : ∀ e ∈ st.rev, e ∈ (List.cons Ev.fetch
              (.gateQuery (st.rowIdx - 1) false :: st.rev)) := by
            intro e he
            exact List.mem_cons_of_mem _ (List.mem_cons_of_mem _ he)
          have hmemextF : ∀ (s2 : WState), s2.rev = preq ++
              (Ev.fetch :: Ev.gateQuery (st.rowIdx - 1) false :: st.rev) →
              ∀ e ∈ st.rev, e ∈ s2.rev := by
            intro s2 h2 e he
            rw [h2]
            exact List.mem_append_right _ (hmemF e he)
          have hred0 : ∀ res : RunResult,
              (match processRow g sf row
                  ⟨st.rowIdx, st.rowIdx - 1, st.sinceLast, st.sinkCalls,
                    .fetch :: .gateQuery (st.rowIdx - 1) false :: st.rev⟩ with
                | .halted k s => RunResult.mk k s
                | .cont st' => writeLoop g sf (bs' + 1) ff rest bs' st') = res →
              writeLoop g sf (bs' + 1) ff (row :: rest) 0 st = res := by
            intro res hres
            simp only [writeLoop, hans, Bool.false_eq_true, if_false]
            exact hres
          cases hpr : processRow g sf row
              ⟨st.rowIdx, st.rowIdx - 1, st.sinceLast, st.sinkCalls,
                .fetch :: .gateQuery (st.rowIdx - 1) false :: st.rev⟩ with
          | cont st' =>
            rw [hpr] at hpreq
            simp only [StepRes.st] at hpreq
            obtain ⟨hri', _⟩ := qrB st' hpr
            dsimp only at hri'
            obtain ⟨ihM, ihC⟩ := ih bs' st'
            have hred : writeLoop g sf (bs' + 1) ff (row :: rest) 0 st =
                writeLoop g sf (bs' + 1) ff rest bs' st' := by
              apply hred0
              rw [hpr]
            rw [hred]
            refine ⟨fun e he => ihM e (hmemextF st' hpreq e he), ?_⟩
            intro hne hcov
            simp only [allRowsNonempty, List.all_cons, Bool.and_eq_true] at hne
            obtain ⟨hrow, hrest⟩ := hne
            cases row with
            | nil => exact nomatch hrow
            | cons v vs =>
              refine ihC hrest ?_
              intro j hj1 hj2
              rw [hri'] at hj2
              rcases Nat.lt_or_ge j st.rowIdx with hlt | hge
              · obtain ⟨co, v0, sty, hm⟩ := hcov j hj1 (by omega)
                exact ⟨co, v0, sty, hmemextF st' hpreq _ hm⟩
              · have hj : j = st.rowIdx := by omega
                subst hj
                have := processRow_cont_cell g sf v vs
                  ⟨st.rowIdx, st.rowIdx - 1, st.sinceLast, st.sinkCalls,
                    .fetch :: .gateQuery (st.rowIdx - 1) false :: st.rev⟩ st' hpr
                exact this
          | halted k s' =>
            rw [hpr] at hpreq
            simp only [StepRes.st] at hpreq
            obtain ⟨hri', _⟩ := qrC k s' hpr
            dsimp only at hri'
            have hred : writeLoop g sf (bs' + 1) ff (row :: rest) 0 st =
                RunResult.mk k s' := by
              apply hred0
              rw [hpr]
            rw [hred]
            dsimp only
            refine ⟨hmemextF s' hpreq, ?_⟩
            intro _ hcov j hj1 hj2
            rw [hri'] at hj2
            obtain ⟨co, v0, sty, hm⟩ := hcov j hj1 hj2
            exact ⟨co, v0, sty, hmemextF s' hpreq _ hm⟩

theorem styleFor_ne_header (c : Nat) (v : PyVal) : styleFor c v ≠ .header := by
  unfold styleFor
  by_cases h : (c == 2 && v.truthy) = true
  · rw [if_pos h]
    exact fun hc => nomatch hc
  · rw [if_neg h]
    exact fun hc => nomatch hc

/-- The new part of the trace: the final `rev` extends the starting one by
events that are styled sink calls in `[st.rowIdx, final.rowIdx]`, gate
queries, or fetches. -/
theorem writeLoop_revExt (g : Nat → Bool) (sf : SinkCfg) (bs : Nat)
    (ff : Option PyExc) :
    ∀ (remaining : List (List PyVal)) (lib : Nat) (st : WState),
      st.rowIdx ≤ (writeLoop g sf bs ff remaining lib st).final.rowIdx ∧
      ∃ newEvs,
        (writeLoop g sf bs ff remaining lib st).final.rev = newEvs ++ st.rev ∧
        ∀ e ∈ newEvs,
          newEvOK st.rowIdx (writeLoop g sf bs ff remaining lib st).final.rowIdx e
            = true ∨
          (∃ w a, e = .gateQuery w a) ∨ e = .fetch := by
  intro remaining
  induction remaining with
  | nil =>
    intro lib st
    cases hans : g (st.rowIdx - 1) with
    | true =>
      simp only [writeLoop, hans, eq_self_iff_true, if_true]
      refine ⟨le_refl _, [.gateQuery (st.rowIdx - 1) true], rfl, ?_⟩
      intro e he
      simp only [List.mem_singleton] at he
      subst he
      exact Or.inr (Or.inl ⟨_, _, rfl⟩)
    | false =>
      simp only [writeLoop, hans, Bool.false_eq_true, if_false]
      cases ff with
      | some e0 =>
        refine ⟨le_refl _, [.gateQuery (st.rowIdx - 1) false], rfl, ?_⟩
        intro e he
        simp only [List.mem_singleton] at he
        subst he
        exact Or.inr (Or.inl ⟨_, _, rfl⟩)
      | none =>
        refine ⟨le_refl _, [.fetch, .gateQuery (st.rowIdx - 1) false], rfl, ?_⟩
        intro e he
        simp only [List.mem_cons, List.not_mem_nil, or_false] at he
        rcases he with h | h
        · subst h
          exact Or.inr (Or.inr rfl)
        · subst h
          exact Or.inr (Or.inl ⟨_, _, rfl⟩)
  | cons row rest ih =>
    intro lib st
    obtain ⟨_, prB, prC, ⟨pre, hpre, hok, _⟩, _⟩ := processRow_spec g sf row st
    have hpreOK : ∀ (hi : Nat), st.rowIdx ≤ hi → ∀ e ∈ pre,
        newEvOK st.rowIdx hi e = true ∨ (∃ w a, e = .gateQuery w a) ∨ e = .fetch := by
      intro hi hhi e he
      rcases hok e he with h | h
      · exact Or.inl (newEvOK_mono (le_refl _) hhi h)
      · exact Or.inr (Or.inl ⟨_, _, h⟩)
    cases lib with
    | succ l =>
      cases hpr : processRow g sf row st with
      | cont st' =>
        rw [hpr] at hpre
        simp only [StepRes.st] at hpre
        obtain ⟨hri', _⟩ := prB st' hpr
        obtain ⟨ihA, newEvs, ihExt, ihOK⟩ := ih l st'
        have hred : writeLoop g sf bs ff (row :: rest) (l + 1) st =
            writeLoop g sf bs ff rest l st' := by
          show (match processRow g sf row st with
            | .halted k s => RunResult.mk k s
            | .cont st' => writeLoop g sf bs ff rest l st') = _
          rw [hpr]
        rw [hred]
        refine ⟨by omega, newEvs ++ pre, ?_, ?_⟩
        · rw [ihExt, hpre, List.append_assoc]
        · intro e he
          rcases List.mem_append.mp he with h | h
          · rcases ihOK e h with hOK | hrest
            · exact Or.inl (newEvOK_mono (by omega) (le_refl _) hOK)
            · exact Or.inr hrest
          · exact hpreOK _ (by omega) e h
      | halted k s' =>
        rw [hpr] at hpre
        simp only [StepRes.st] at hpre
        obtain ⟨hri', _⟩ := prC k s' hpr
        have hred : writeLoop g sf bs ff (row :: rest) (l + 1) st =
            RunResult.mk k s' := by
          show (match processRow g sf row st with
            | .halted k s => RunResult.mk k s
            | .cont st' => writeLoop g sf bs ff rest l st') = _
          rw [hpr]
        rw [hred]
        dsimp only
        exact ⟨by omega, pre, hpre, hpreOK _ (by omega)⟩
    | zero =>
      cases hans : g (st.rowIdx - 1) with
      | true =>
        simp only [writeLoop, hans, eq_self_iff_true, if_true]
        refine ⟨le_refl _, [.gateQuery (st.rowIdx - 1) true], rfl, ?_⟩
        intro e he
        simp only [List.mem_singleton] at he
        subst he
        exact Or.inr (Or.inl ⟨_, _, rfl⟩)
      | false =>
        cases bs with
        | zero =>
          simp only [writeLoop, hans, Bool.false_eq_true, if_false]
          refine ⟨le_refl _, [.fetch, .gateQuery (st.rowIdx - 1) false], rfl, ?_⟩
          intro e he
          simp only [List.mem_cons, List.not_mem_nil, or_false] at he
          rcases he with h | h
          · subst h
            exact Or.inr (Or.inr rfl)
          · subst h
            exact Or.inr (Or.inl ⟨_, _, rfl⟩)
        | succ bs' =>
          obtain ⟨_, qrB, qrC, ⟨preq, hpreq, hokq, _⟩, _⟩ := processRow_spec g sf row
            ⟨st.rowIdx, st.rowIdx - 1, st.sinceLast, st.sinkCalls,
              .fetch :: .gateQuery (st.rowIdx - 1) false :: st.rev⟩
          dsimp only at hokq
          have hpreOKq : ∀ (hi : Nat), st.rowIdx ≤ hi → ∀ e ∈ preq,
              newEvOK st.rowIdx hi e = true ∨
              (∃ w a, e = .gateQuery w a) ∨ e = .fetch := by
            intro hi hhi e he
            rcases hokq e he with h | h
            · exact Or.inl (newEvOK_mono (le_refl _) hhi h)
            · exact Or.inr (Or.inl ⟨_, _, h⟩)
          have hred0 : ∀ res : RunResult,
              (match processRow g sf row
                  ⟨st.rowIdx, st.rowIdx - 1, st.sinceLast, st.sinkCalls,
                    .fetch :: .gateQuery (st.rowIdx - 1) false :: st.rev⟩ with
                | .halted k s => RunResult.mk k s
                | .cont st' => writeLoop g sf (bs' + 1) ff rest bs' st') = res →
              writeLoop g sf (bs' + 1) ff (row :: rest) 0 st = res := by
            intro res hres
            simp only [writeLoop, hans, Bool.false_eq_true, if_false]
            exact hres
          cases hpr : processRow g sf row
              ⟨st.rowIdx, st.rowIdx - 1, st.sinceLast, st.sinkCalls,
                .fetch :: .gateQuery (st.rowIdx - 1) false :: st.rev⟩ with
          | cont st' =>
            rw [hpr] at hpreq
            simp only [StepRes.st] at hpreq
            obtain ⟨hri', _⟩ := qrB st' hpr
            dsimp only at hri'
            obtain ⟨ihA, newEvs, ihExt, ihOK⟩ := ih bs' st'
            have hred : writeLoop g sf (bs' + 1) ff (row :: rest) 0 st =
                writeLoop g sf (bs' + 1) ff rest bs' st' := by
              apply hred0
              rw [hpr]
            rw [hred]
            refine ⟨by omega,
              newEvs ++ preq ++ [.fetch, .gateQuery (st.rowIdx - 1) false], ?_, ?_⟩
            · rw [ihExt, hpreq]
              simp only [List.append_assoc, List.cons_append, List.nil_append]
            · intro e he
              simp only [List.mem_append, List.mem_cons, List.not_mem_nil,
                or_false] at he
              rcases he with (h | h) | h | h
              · rcases ihOK e h with hOK | hrest
                · exact Or.inl (newEvOK_mono (by omega) (le_refl _) hOK)
                · exact Or.inr hrest
              · exact hpreOKq _ (by omega) e h
              · subst h
                exact Or.inr (Or.inr rfl)
              · subst h
                exact Or.inr (Or.inl ⟨_, _, rfl⟩)
          | halted k s' =>
            rw [hpr] at hpreq
            simp only [StepRes.st] at hpreq
            obtain ⟨hri', _⟩ := qrC k s' hpr
            dsimp only at hri'
            have hred : writeLoop g sf (bs' + 1) ff (row :: rest) 0 st =
                RunResult.mk k s' := by
              apply hred0
              rw [hpr]
            rw [hred]
            dsimp only
            refine ⟨by omega,
              preq ++ [.fetch, .gateQuery (st.rowIdx - 1) false], ?_, ?_⟩
            · rw [hpreq]
              simp only [List.append_assoc, List.cons_append, List.nil_append]
            · intro e he
              simp only [List.mem_append, List.mem_cons, List.not_mem_nil,
                or_false] at he
              rcases he with h | h | h
              · exact hpreOKq _ (by omega) e h
              · subst h
                exact Or.inr (Or.inr rfl)
              · subst h
                exact Or.inr (Or.inl ⟨_, _, rfl⟩)

theorem headerCells_mem : ∀ (cols : List String) (colIdx : Nat) (e : Ev),
    e ∈ headerCells colIdx cols → ∃ i c, e = .cell 0 i (.vStr c) .header := by
  intro cols
  induction cols with
  | nil =>
    intro colIdx e he
    exact absurd he (List.not_mem_nil e)
  | cons c rest ih =>
    intro colIdx e he
    simp only [headerCells, List.mem_cons] at he
    rcases he with h | h
    · exact ⟨colIdx, c, h⟩
    · exact ih (colIdx + 1) e h

theorem write_excel_headers_spec (sf : SinkCfg) :
    ∀ (cols : List String) (colIdx : Nat) (st : WState),
      (∀ s', write_excel_headers sf colIdx cols st = .cont s' →
        s'.rowIdx = st.rowIdx ∧ s'.totalRows = st.totalRows ∧
        s'.sinceLast = st.sinceLast ∧
        s'.rev = .rowHeight 0 20 :: ((headerCells colIdx cols).reverse ++ st.rev)) ∧
      (∀ k s', write_excel_headers sf colIdx cols st = .halted k s' →
        (∃ e n, k = .sinkRaised e ∧ sf = some (n, e)) ∧
        s'.rowIdx = st.rowIdx ∧ s'.totalRows = st.totalRows ∧
        s'.sinceLast = st.sinceLast ∧
        ∃ m, m ≤ (headerCells colIdx cols).length ∧
          s'.rev = ((headerCells colIdx cols).take m).reverse ++ st.rev) := by
  intro cols
  induction cols with
  | nil =>
    intro colIdx st
    constructor
    · intro s' hs'
      unfold write_excel_headers at hs'
      rcases sinkCall_spec sf (.rowHeight 0 20) st with
        ⟨st1, hok, hri, htr, hsl, hrev⟩ | ⟨exc, n, herr, hsf⟩
      · rw [hok] at hs'
        dsimp only at hs'
        simp only [StepRes.cont.injEq] at hs'
        subst hs'
        exact ⟨hri, htr, hsl, by rw [hrev]; simp [headerCells]⟩
      · rw [herr] at hs'
        dsimp only at hs'
        exact nomatch hs'
    · intro k s' hk
      unfold write_excel_headers at hk
      rcases sinkCall_spec sf (.rowHeight 0 20) st with
        ⟨st1, hok, hri, htr, hsl, hrev⟩ | ⟨exc, n, herr, hsf⟩
      · rw [hok] at hk
        dsimp only at hk
        exact nomatch hk
      · rw [herr] at hk
        dsimp only at hk
        simp only [StepRes.halted.injEq] at hk
        obtain ⟨rfl, rfl⟩ := hk
        exact ⟨⟨exc, n, rfl, hsf⟩, rfl, rfl, rfl, 0, by simp [headerCells]⟩
  | cons c rest ih =>
    intro colIdx st
    constructor
    · intro s' hs'
      unfold write_excel_headers at hs'
      rcases sinkCall_spec sf (.cell 0 colIdx (.vStr c) .header) st with
        ⟨st1, hok, hri, htr, hsl, hrev⟩ | ⟨exc, n, herr, hsf⟩
      · rw [hok] at hs'
        dsimp only at hs'
        obtain ⟨hcont, _⟩ := ih (colIdx + 1) st1
        obtain ⟨h1, h2, h3, h4⟩ := hcont s' hs'
        refine ⟨h1.trans hri, h2.trans htr, h3.trans hsl, ?_⟩
        rw [h4, hrev]
        simp only [headerCells, List.reverse_cons, List.append_assoc,
          List.cons_append, List.nil_append]
      · rw [herr] at hs'
        dsimp only at hs'
        exact nomatch hs'
    · intro k s' hk
      unfold write_excel_headers at hk
      rcases sinkCall_spec sf (.cell 0 colIdx (.vStr c) .header) st with
        ⟨st1, hok, hri, htr, hsl, hrev⟩ | ⟨exc, n, herr, hsf⟩
      · rw [hok] at hk
        dsimp only at hk
        obtain ⟨_, hhalt⟩ := ih (colIdx + 1) st1
        obtain ⟨hkind, h1, h2, h3, m, hm, h4⟩ := hhalt k s' hk
        refine ⟨hkind, h1.trans hri, h2.trans htr, h3.trans hsl, m + 1, ?_, ?_⟩
        · simp only [headerCells, List.length_cons]
          omega
        · rw [h4, hrev]
          show _ = (List.take (m + 1)
            (Ev.cell 0 colIdx (.vStr c) .header ::
              headerCells (colIdx + 1) rest)).reverse ++ st.rev
          rw [List.take_succ_cons, List.reverse_cons, List.append_assoc,
            List.singleton_append]
      · rw [herr] at hk
        dsimp only at hk
        simp only [StepRes.halted.injEq] at hk
        obtain ⟨rfl, rfl⟩ := hk
        exact ⟨⟨exc, n, rfl, hsf⟩, rfl, rfl, rfl, 0, by simp⟩

/-! ## Facts about `create_filename` -/

theorem str_data_append (a b : String) : (a ++ b).data = a.data ++ b.data := by
  cases a
  cases b
  rfl

theorem hasDash_append (a b : String) :
    hasDash (a ++ b) = (hasDash a || hasDash b) := by
  unfold hasDash
  rw [str_data_append]
  by_cases h1 : '-' ∈ a.data <;> by_cases h2 : '-' ∈ b.data <;>
    simp [List.contains, List.elem_iff, List.elem_eq_true_of_mem, h1, h2]

theorem hasDash_lookup_literal (m : String) :
    ∀ (l : List (String × String)), (∀ q ∈ l, hasDash q.2 = false) →
      hasDash ((l.lookup m).getD "") = false := by
  intro l
  induction l with
  | nil => intro _; rfl
  | cons q rest ih =>
    intro hall
    obtain ⟨k, v⟩ := q
    simp only [List.lookup]
    cases hk : m == k with
    | true =>
      simp only [Option.getD_some]
      exact hall (k, v) (List.mem_cons_self _ _)
    | false =>
      exact ih fun q hq => hall q (List.mem_cons_of_mem _ hq)

theorem hasDash_monthNamesGet (m : String) :
    hasDash (monthNamesGet m) = false := by
  unfold monthNamesGet
  exact hasDash_lookup_literal m monthNames (by decide)

theorem hasDash_renderYM {f : String} (hd : f.data.all Char.isDigit = true) :
    hasDash (renderYM f) = false := by
  unfold renderYM
  rw [hasDash_append, hasDash_monthNamesGet, Bool.false_or]
  unfold hasDash pySlice24
  rcases h : (((f.data.drop 2).take 2).contains '-') with _ | _
  · rfl
  · exfalso
    have hm : '-' ∈ (f.data.drop 2).take 2 := List.elem_iff.mp h
    have hmem : '-' ∈ f.data := List.mem_of_mem_drop (List.mem_of_mem_take hm)
    have := (List.all_eq_true.mp hd) '-' hmem
    exact nomatch this

theorem fieldPart_of_emptyOrWC {v : String} (h : emptyOrWC v = true) :
    fieldPart v = "" := by
  unfold emptyOrWC at h
  simp only [Bool.or_eq_true, beq_iff_eq] at h
  rcases h with rfl | rfl <;> rfl

theorem hsPart_of_emptyOrWC {v : String} (h : emptyOrWC v = true) :
    hsPart v = "" := by
  unfold emptyOrWC at h
  simp only [Bool.or_eq_true, beq_iff_eq] at h
  rcases h with rfl | rfl <;> rfl

theorem paramLabel_of_empty {p : ExportParams} (h : allFieldsEmpty p = true) :
    paramLabel p = "" := by
  unfold allFieldsEmpty at h
  simp only [Bool.and_eq_true] at h
  obtain ⟨⟨⟨⟨⟨⟨h1, h2⟩, h3⟩, h4⟩, h5⟩, h6⟩, h7⟩ := h
  unfold paramLabel
  rw [hsPart_of_emptyOrWC h1, fieldPart_of_emptyOrWC h2, fieldPart_of_emptyOrWC h3,
    fieldPart_of_emptyOrWC h4, fieldPart_of_emptyOrWC h5, fieldPart_of_emptyOrWC h6,
    fieldPart_of_emptyOrWC h7]
  rfl

/-! ## Claim theorems -/

/-- C6 (counterexample): a `YearMonth` value that is not a 6-digit string —
here `"13"` — does not make `create_filename` fail with `InvalidArgument`:
the function is total and returns the filename `"Export_EXP.xlsx"` built
from empty month labels. -/
theorem C6_counterexample :
    ValidYM "13" = false ∧
    create_filename ⟨"13", "13", "", "", "", "", "", "", ""⟩ [] =
      "Export_EXP.xlsx" := by decide

/-- C6 (amended): `create_filename` has no failure modes at all: for every
input — 6-digit or malformed `YearMonth` values alike — it returns a
filename of the form `{label}_{monthYear}EXP.xlsx`; malformed months
silently yield an empty or partial month label instead of an error. -/
theorem C6_total (p : ExportParams) (first_row_hs : List String) :
    ∃ label, create_filename p first_row_hs =
      label ++ "_" ++ monthYear p.fromMonth p.toMonth ++ "EXP.xlsx" :=
  ⟨_, rfl⟩

/-- C7 (counterexample): two different, valid `YearMonth` values — 202301
and 212301, a century apart — render to the same `MON+YY` label `JAN23`
(the code reads the year digits at positions 2–3), so the month-range label
of a filter set with these differing months contains no `-`. -/
theorem C7_counterexample :
    ValidYM "202301" = true ∧ ValidYM "212301" = true ∧
    "202301" ≠ "212301" ∧
    hasDash (monthYear "202301" "212301") = false := by decide

/-- C7 (amended): for valid `YearMonth` values the month-range label has no
`-` when `fromMonth = toMonth`, and contains `-` exactly when the two
`MON+YY` renderings differ — differing months that render identically (same
month, same year digits at positions 2–3) yield a single dashless label. -/
theorem C7_dash (f t : String) (hf : ValidYM f = true) (ht : ValidYM t = true) :
    (f = t → hasDash (monthYear f t) = false) ∧
    (renderYM f ≠ renderYM t → hasDash (monthYear f t) = true) := by
  have hdig : f.data.all Char.isDigit = true := by
    unfold ValidYM at hf
    simp only [Bool.and_eq_true] at hf
    exact hf.1.2
  constructor
  · intro hft
    subst hft
    unfold monthYear
    simp only [if_pos rfl]
    exact hasDash_renderYM hdig
  · intro hne
    unfold monthYear
    simp only [if_neg hne]
    rw [hasDash_append, hasDash_append]
    have : hasDash "-" = true := by decide
    rw [this]
    simp

/-- C7 (witness). -/
theorem C7_dash_witness :
    hasDash (monthYear "202301" "202302") = true :=
  (C7_dash "202301" "202302" (by decide) (by decide)).2 (by decide)

/-- C9: only the first comma-separated token of the HS field contributes to
the composed filename — replacing the HS field `"1234,5678"` by `"1234"`
with every other field fixed yields the same name. -/
theorem C9_hs_first_token (p : ExportParams) (first_row_hs : List String) :
    create_filename { p with hs := "1234,5678" } first_row_hs =
      create_filename { p with hs := "1234" } first_row_hs := by
  unfold create_filename paramLabel
  dsimp only
  rw [show hsPart "1234,5678" = hsPart "1234" from by decide]

theorem truncate8_eq_take (sCode : String) :
    (if sCode.data.length > 8 then pyTake 8 sCode else sCode) = pyTake 8 sCode := by
  by_cases h : sCode.data.length > 8
  · rw [if_pos h]
  · rw [if_neg h]
    obtain ⟨l⟩ := sCode
    show String.mk l = String.mk (l.take 8)
    rw [List.take_all_of_le (by simpa using Nat.le_of_not_lt h)]

/-- C8 (counterexample): with every filter field empty and the fallback row
`[" 123456789"]`, the composed label is `"12345678"` — the first 8
characters of the *whitespace-stripped* field — not the first 8 characters
`" 1234567"` of the field itself, contradicting the claim's "the label is
the first 8 characters of that field". -/
theorem C8_counterexample :
    create_filename ⟨"202301", "202301", "", "", "", "", "", "", ""⟩
        [" 123456789"] = "12345678_JAN23EXP.xlsx" ∧
    pyTake 8 " 123456789" = " 1234567" ∧
    create_filename ⟨"202301", "202301", "", "", "", "", "", "", ""⟩
        [" 123456789"] ≠
      pyTake 8 " 123456789" ++ "_" ++ monthYear "202301" "202301" ++
        "EXP.xlsx" := by decide

/-- C8 (amended): when every filter field is empty or the `%` wildcard, the
filename is `{fallbackLabel}_{monthYear}EXP.xlsx`, where the fallback label
is `"Export"` when no fallback row is given or its first field is empty,
and otherwise the first 8 characters of the whitespace-stripped first field
— truncation never failing on short strings (no padding, no error). -/
theorem C8_fallback (p : ExportParams) (first_row_hs : List String)
    (h : allFieldsEmpty p = true) :
    create_filename p first_row_hs =
      fallbackLabel first_row_hs ++ "_" ++
        monthYear p.fromMonth p.toMonth ++ "EXP.xlsx" ∧
    (first_row_hs = [] → fallbackLabel first_row_hs = "Export") ∧
    (∀ f rest, first_row_hs = f :: rest → f = "" →
      fallbackLabel first_row_hs = "Export") ∧
    (∀ f rest, first_row_hs = f :: rest → f ≠ "" →
      fallbackLabel first_row_hs = pyTake 8 (pyStrip f)) := by
  refine ⟨?_, ?_, ?_, ?_⟩
  · unfold create_filename
    rw [paramLabel_of_empty h]
    rfl
  · intro hnil
    subst hnil
    rfl
  · intro f rest hcons hf
    subst hcons
    subst hf
    rfl
  · intro f rest hcons hf
    subst hcons
    unfold fallbackLabel
    have ht : strTruthy f = true := by
      unfold strTruthy
      simp only [Bool.not_eq_true']
      exact beq_eq_false_iff_ne.mpr hf
    dsimp only
    rw [if_pos ht]
    exact truncate8_eq_take (pyStrip f)

/-- C8 (witness): the spec's own example — all fields empty, fallback row
`["29021100ABC"]`, months 202301. -/
theorem C8_fallback_witness :
    create_filename ⟨"202301", "202301", "", "", "", "", "", "", ""⟩
        ["29021100ABC"] =
      fallbackLabel ["29021100ABC"] ++ "_" ++
        monthYear "202301" "202301" ++ "EXP.xlsx" :=
  (C8_fallback ⟨"202301", "202301", "", "", "", "", "", "", ""⟩
    ["29021100ABC"] (by decide)).1

theorem styleFor_date {co : Nat} {v : PyVal} (hco : co = 2)
    (hv : v.truthy = true) : styleFor co v = .date := by
  subst hco
  unfold styleFor
  rw [if_pos (by simp [hv])]

theorem styleFor_not2 {co : Nat} {v : PyVal} (hco : co ≠ 2) :
    styleFor co v = .data := by
  unfold styleFor
  rw [if_neg]
  simp only [Bool.and_eq_true, beq_iff_eq]
  exact fun hc => hco hc.1

theorem styleFor_falsy {v : PyVal} (hv : v.truthy = false) :
    styleFor 2 v = .data := by
  unfold styleFor
  rw [if_neg]
  simp [hv]

/-- Cells written by the data loop carry exactly the style of lines
197–202. -/
theorem write_data_cell_styles (g : Nat → Bool) (sf : SinkCfg) (bs : Nat)
    (cur : Cursor) :
    ∀ e ∈ (write_data_to_excel g sf bs cur).events, ∀ ro co v sty,
      e = Ev.cell ro co v sty → sty = styleFor co v ∧ 1 ≤ ro := by
  intro e he ro co v sty hcell
  obtain ⟨newEvs, hext, hOK⟩ :=
    (writeLoop_revExt g sf bs cur.fetchFail cur.rows 0 initState).2
  have hmem : e ∈ newEvs := by
    have h1 : e ∈ (write_data_to_excel g sf bs cur).final.rev :=
      List.mem_reverse.mp he
    rw [show (write_data_to_excel g sf bs cur).final.rev =
      (writeLoop g sf bs cur.fetchFail cur.rows 0 initState).final.rev from rfl,
      hext] at h1
    simpa [initState] using h1
  rcases hOK e hmem with hOK1 | ⟨w, a, hq⟩ | hf
  · subst hcell
    simp only [newEvOK, Bool.and_eq_true, beq_iff_eq, decide_eq_true_eq] at hOK1
    exact ⟨hOK1.1.1, hOK1.1.2⟩
  · rw [hcell] at hq
    exact nomatch hq
  · rw [hcell] at hf
    exact nomatch hf

/-- C5: in every run of the data writer, a cell in the date column (index
2) whose value is non-empty in the code's sense (truthy) gets the date
style, and a cell in any other column never gets the date style — it always
receives the plain data style. -/
theorem C5_date_column_style (g : Nat → Bool) (sf : SinkCfg) (bs : Nat)
    (cur : Cursor) :
    ∀ e ∈ (write_data_to_excel g sf bs cur).events, ∀ ro co v sty,
      e = Ev.cell ro co v sty →
      (co = 2 → v.truthy = true → sty = .date) ∧
      (co ≠ 2 → sty = .data) := by
  intro e he ro co v sty hcell
  obtain ⟨hsty, _⟩ := write_data_cell_styles g sf bs cur e he ro co v sty hcell
  constructor
  · intro hco hv
    rw [hsty]
    exact styleFor_date hco hv
  · intro hco
    rw [hsty]
    exact styleFor_not2 hco

/-- C5 (witness): a truthy date value in column 2 is written with the date
style, and the truthy value in column 0 with the data style. -/
theorem C5_date_column_style_witness :
    ((2 : Nat) = 2 → (PyVal.vDate "2024-05-05").truthy = true →
      CellStyle.date = CellStyle.date) ∧
    ((2 : Nat) ≠ 2 → CellStyle.date = CellStyle.data) :=
  C5_date_column_style (fun _ => false) none 5
    ⟨[[.vStr "a", .vInt 5, .vDate "2024-05-05"]], none⟩
    (Ev.cell 1 2 (.vDate "2024-05-05") .date) (by decide)
    1 2 (.vDate "2024-05-05") .date rfl

/-- C10: a falsy value — `None`, the empty string, or the number 0 — in the
date column (index 2) is written with the plain data style, not the date
style: the writer's "non-empty" test is Python truthiness, so a legitimate
zero in the date column is formatted as plain data. -/
theorem C10_falsy_date_column (g : Nat → Bool) (sf : SinkCfg) (bs : Nat)
    (cur : Cursor) :
    ∀ e ∈ (write_data_to_excel g sf bs cur).events, ∀ ro v sty,
      e = Ev.cell ro 2 v sty →
      (v = .vNone ∨ v = .vStr "" ∨ v = .vInt 0) → sty = .data := by
  intro e he ro v sty hcell hfalsy
  obtain ⟨hsty, _⟩ := write_data_cell_styles g sf bs cur e he ro 2 v sty hcell
  rw [hsty]
  refine styleFor_falsy ?_
  rcases hfalsy with rfl | rfl | rfl <;> rfl

/-- C10 (witness): the number 0 in the date column of a concrete run is
written with the data style. -/
theorem C10_falsy_date_column_witness : CellStyle.data = CellStyle.data :=
  C10_falsy_date_column (fun _ => false) none 5
    ⟨[[.vStr "a", .vInt 5, .vInt 0]], none⟩
    (Ev.cell 1 2 (.vInt 0) .data) (by decide)
    1 (.vInt 0) .data rfl (Or.inr (Or.inr rfl))

/-- C1 (counterexample): for the claim's own example — 25,000 rows fetched
in batches of 5,000, cancellation requested after the 12,000th row, check
stride 1,000 — the run does terminate cancelled, but the progress it reports
is 10,000 (the stale `total_rows` of the last fully completed batch), while
12,999 rows were actually written: the reported progress is neither equal to
the rows written nor in the claimed interval [12,000, 12,999]. -/
theorem C1_counterexample :
    c1Run.exit = .cancelledRun 10000 ∧
    c1Run.rowsWritten = 12999 ∧
    ¬ (10000 = 12999) ∧ ¬ (12000 ≤ 10000) := by
  obtain ⟨h1, h2⟩ := c1Run_eval
  exact ⟨h1, by simp [RunResult.rowsWritten, h2], by decide, by decide⟩

/-- C1 (amended): whenever a run of `write_data_to_excel` terminates
cancelled, the progress it reports equals the final `total_rows` counter —
the number of rows in fully completed batches — which is at most (but, as
the counterexample shows, not always equal to) the number of rows actually
written; and a `true` gate answer at any checked point does force the
cancelled outcome. -/
theorem C1_cancelled_progress (g : Nat → Bool) (sf : SinkCfg) (bs : Nat)
    (cur : Cursor) :
    (∀ p, (write_data_to_excel g sf bs cur).exit = .cancelledRun p →
      p = (write_data_to_excel g sf bs cur).final.totalRows ∧
      p ≤ (write_data_to_excel g sf bs cur).rowsWritten) ∧
    ((∃ w, Ev.gateQuery w true ∈ (write_data_to_excel g sf bs cur).events) →
      ∃ p, (write_data_to_excel g sf bs cur).exit = .cancelledRun p) := by
  have hspec := writeLoop_spec g sf bs cur.fetchFail cur.rows 0 initState
    (by simp [initState])
  constructor
  · intro p hp
    exact hspec.2.2.2.1 p hp
  · intro ⟨w, hw⟩
    by_contra hno
    push_neg at hno
    have hnone := hspec.2.2.2.2 (by simp [initState])
      (fun p hp => (hno p) hp) w
    exact hnone (List.mem_reverse.mp hw)

/-- C1 (witness): six rows in batches of two with cancellation requested
after the third row: the run is cancelled at the third pre-batch check with
reported progress 4, which equals both the final `total_rows` and the rows
written. -/
theorem C1_cancelled_progress_witness :
    ((4 : Nat) =
      (write_data_to_excel (fun w => decide (3 ≤ w)) none 2
        ⟨List.replicate 6 [PyVal.vInt 1], none⟩).final.totalRows ∧
     (4 : Nat) ≤
      (write_data_to_excel (fun w => decide (3 ≤ w)) none 2
        ⟨List.replicate 6 [PyVal.vInt 1], none⟩).rowsWritten) ∧
    (∃ p, (write_data_to_excel (fun w => decide (3 ≤ w)) none 2
        ⟨List.replicate 6 [PyVal.vInt 1], none⟩).exit = .cancelledRun p) :=
  ⟨(C1_cancelled_progress (fun w => decide (3 ≤ w)) none 2
      ⟨List.replicate 6 [PyVal.vInt 1], none⟩).1 4 (by decide),
   (C1_cancelled_progress (fun w => decide (3 ≤ w)) none 2
      ⟨List.replicate 6 [PyVal.vInt 1], none⟩).2 ⟨4, by decide⟩⟩

/-- C2 (counterexample): the writer raises cancellation as the generic
exception value `Exception("Operation cancelled by user")`, so a cancelled
run and a run whose cursor read fails with that same exception value present
the identical outcome to the caller: the failure outcomes are not mutually
distinguishable. -/
theorem C2_counterexample :
    (write_data_to_excel (fun w => decide (1 ≤ w)) none 1
      ⟨[[.vInt 1], [.vInt 1]], none⟩).exit = .cancelledRun 1 ∧
    (write_data_to_excel (fun _ => false) none 1
      ⟨[[.vInt 1]], some cancelExc⟩).exit = .sourceRaised cancelExc ∧
    ExitKind.cancelledRun 1 ≠ ExitKind.sourceRaised cancelExc ∧
    callerView (.cancelledRun 1) = callerView (.sourceRaised cancelExc) :=
  ⟨by decide, by decide, by decide, rfl⟩

/-- C2 (amended): the writer does terminate in exactly one of the four ways
— returning the rows-written count on normal exhaustion, and propagating the
cursor exception, the sink exception, or the fixed generic cancellation
exception otherwise — but the failure outcomes are distinguishable to the
caller only when the propagated exception value differs from the generic
`Exception("Operation cancelled by user")` used for cancellation. -/
theorem C2_outcomes (g : Nat → Bool) (sf : SinkCfg) (bs : Nat)
    (cur : Cursor) :
    (∀ n, (write_data_to_excel g sf bs cur).exit = .completed n →
      n = (write_data_to_excel g sf bs cur).rowsWritten ∧
      callerView (write_data_to_excel g sf bs cur).exit = .ok n) ∧
    (∀ p, (write_data_to_excel g sf bs cur).exit = .cancelledRun p →
      callerView (write_data_to_excel g sf bs cur).exit = .error cancelExc) ∧
    (∀ e, (write_data_to_excel g sf bs cur).exit = .sourceRaised e →
      callerView (write_data_to_excel g sf bs cur).exit = .error e) ∧
    (∀ e, (write_data_to_excel g sf bs cur).exit = .sinkRaised e →
      callerView (write_data_to_excel g sf bs cur).exit = .error e) ∧
    (∀ e p, e ≠ cancelExc →
      callerView (.sourceRaised e) ≠ callerView (.cancelledRun p) ∧
      callerView (.sinkRaised e) ≠ callerView (.cancelledRun p)) := by
  have hspec := writeLoop_spec g sf bs cur.fetchFail cur.rows 0 initState
    (by simp [initState])
  refine ⟨?_, ?_, ?_, ?_, ?_⟩
  · intro n hn
    refine ⟨(hspec.2.2.1 n hn).1, ?_⟩
    rw [show (write_data_to_excel g sf bs cur).exit =
      (writeLoop g sf bs cur.fetchFail cur.rows 0 initState).exit from rfl] at hn ⊢
    rw [hn]
    rfl
  · intro p hp
    rw [show (write_data_to_excel g sf bs cur).exit =
      (writeLoop g sf bs cur.fetchFail cur.rows 0 initState).exit from rfl] at hp ⊢
    rw [hp]
    rfl
  · intro e he
    rw [show (write_data_to_excel g sf bs cur).exit =
      (writeLoop g sf bs cur.fetchFail cur.rows 0 initState).exit from rfl] at he ⊢
    rw [he]
    rfl
  · intro e he
    rw [show (write_data_to_excel g sf bs cur).exit =
      (writeLoop g sf bs cur.fetchFail cur.rows 0 initState).exit from rfl] at he ⊢
    rw [he]
    rfl
  · intro e p he
    constructor
    · intro hEq
      simp only [callerView, Except.error.injEq] at hEq
      exact he hEq
    · intro hEq
      simp only [callerView, Except.error.injEq] at hEq
      exact he hEq

/-- C2 (witness): a three-row run with no cancellation and no failures
completes returning 3, the number of rows written; and a database error such
as `ProgrammingError` is distinguishable from cancellation. -/
theorem C2_outcomes_witness :
    ((3 : Nat) = (write_data_to_excel (fun _ => false) none 2
        ⟨[[.vInt 1], [.vInt 1], [.vInt 1]], none⟩).rowsWritten ∧
      callerView (write_data_to_excel (fun _ => false) none 2
        ⟨[[.vInt 1], [.vInt 1], [.vInt 1]], none⟩).exit = .ok 3) ∧
    (callerView (.sourceRaised ⟨"ProgrammingError", "bad query"⟩) ≠
      callerView (.cancelledRun 5) ∧
     callerView (.sinkRaised ⟨"ProgrammingError", "bad query"⟩) ≠
      callerView (.cancelledRun 5)) :=
  ⟨(C2_outcomes (fun _ => false) none 2
      ⟨[[.vInt 1], [.vInt 1], [.vInt 1]], none⟩).1 3 (by decide),
   (C2_outcomes (fun _ => false) none 2
      ⟨[[.vInt 1], [.vInt 1], [.vInt 1]], none⟩).2.2.2.2
     ⟨"ProgrammingError", "bad query"⟩ 5 (by decide)⟩

/-- C3: in every run of the data writer, every batch fetch is immediately
preceded in the trace by a gate query (which answered `false`, or the fetch
would not have happened), and the gate-consultation cadence holds: starting
from 0, consecutive gate queries are at most 1000 written rows apart, and at
most 1000 further rows are written after the last query — the gate is never
left unconsulted for more than 1000 consecutively written rows. -/
theorem C3_check_cadence (g : Nat → Bool) (sf : SinkCfg) (bs : Nat)
    (cur : Cursor) :
    revFetchOK ((write_data_to_excel g sf bs cur).events).reverse = true ∧
    cadenceOK 0 (queryWrittens (write_data_to_excel g sf bs cur).events)
      ((write_data_to_excel g sf bs cur).rowsWritten) = true := by
  constructor
  · rw [show ((write_data_to_excel g sf bs cur).events).reverse =
      (writeLoop g sf bs cur.fetchFail cur.rows 0 initState).final.rev from by
        simp [RunResult.events, write_data_to_excel]]
    exact writeLoop_fetchOK g sf bs cur.fetchFail cur.rows 0 initState
      (by simp [initState, revFetchOK])
  · obtain ⟨hg, hl⟩ := writeLoop_cadence g sf bs cur.fetchFail cur.rows 0
      initState 0 (by simp [initState, queryWrittens, gapsOK])
      (by simp [initState, queryWrittens, lastD])
      (by simp [initState]) (by simp [initState])
    rw [show queryWrittens (write_data_to_excel g sf bs cur).events =
      queryWrittens
        (writeLoop g sf bs cur.fetchFail cur.rows 0 initState).final.rev.reverse
      from rfl]
    rw [cadence_decomp, hg, Bool.true_and, decide_eq_true_eq]
    exact hl

theorem headerCells_length : ∀ (cols : List String) (colIdx : Nat),
    (headerCells colIdx cols).length = cols.length := by
  intro cols
  induction cols with
  | nil => intro colIdx; rfl
  | cons c rest ih => intro colIdx; simp [headerCells, ih]

theorem hasCellAt_iff (l : List Ev) (j : Nat) :
    hasCellAt l j = true ↔ ∃ co v sty, Ev.cell j co v sty ∈ l := by
  unfold hasCellAt
  rw [List.any_eq_true]
  constructor
  · rintro ⟨e, hmem, he⟩
    cases e with
    | cell r c v sty =>
      simp only [beq_iff_eq] at he
      subst he
      exact ⟨c, v, sty, hmem⟩
    | rowHeight r h => exact nomatch he
    | gateQuery w a => exact nomatch he
    | fetch => exact nomatch he
  · rintro ⟨co, v, sty, hmem⟩
    exact ⟨.cell j co v sty, hmem, by simp⟩

/-- C4: in every run of the export pipeline (header write, then data
streaming), the number of data rows written never exceeds the rows the
cursor yields; the trace splits into a header segment followed by the data
segment, where the header segment is exactly the header cells at row 0 plus
the row-0 height call (or, if the sink fails during the header write, a
prefix of the header cells with no data at all); header cells all sit at
row 0 with the header style; data cells never touch row 0 and never carry
the header style; and (for cursors whose rows are non-empty) every row
index from 1 to the rows-written count received at least one cell — data
rows are consecutive starting at row 1. -/
theorem C4_header_and_rows (g : Nat → Bool) (sf : SinkCfg) (bs : Nat)
    (cur : Cursor) (cols : List String) :
    (export_pipeline g sf bs cur cols).rowsWritten ≤ cur.rows.length ∧
    (∃ hdr dataEvs,
      (export_pipeline g sf bs cur cols).events = hdr ++ dataEvs ∧
      (hdr = headerCells 0 cols ++ [Ev.rowHeight 0 20] ∨
        ((∃ m, m ≤ cols.length ∧ hdr = (headerCells 0 cols).take m) ∧
          dataEvs = [])) ∧
      (∀ ro co v sty, Ev.cell ro co v sty ∈ hdr → ro = 0 ∧ sty = .header) ∧
      (∀ ro co v sty, Ev.cell ro co v sty ∈ dataEvs →
        1 ≤ ro ∧ sty ≠ .header)) ∧
    (allRowsNonempty cur.rows = true →
      ∀ j, 1 ≤ j → j ≤ (export_pipeline g sf bs cur cols).rowsWritten →
        hasCellAt (export_pipeline g sf bs cur cols).events j = true) := by
  cases hh : write_excel_headers sf 0 cols initState with
  | halted k s =>
    have hred : export_pipeline g sf bs cur cols = ⟨k, s⟩ := by
      unfold export_pipeline
      rw [hh]
    obtain ⟨_, hri, _, _, m, hm, hrev⟩ :=
      (write_excel_headers_spec sf cols 0 initState).2 k s hh
    refine ⟨?_, ⟨(headerCells 0 cols).take m, [], ?_, ?_, ?_, ?_⟩, ?_⟩
    · rw [hred]
      show s.rowIdx - 1 ≤ _
      rw [hri]
      simp [initState]
    · rw [hred]
      show s.rev.reverse = _
      rw [hrev]
      simp [initState]
    · rw [headerCells_length cols 0] at hm
      exact Or.inr ⟨⟨m, hm, rfl⟩, rfl⟩
    · intro ro co v sty hmem
      have h1 : Ev.cell ro co v sty ∈ headerCells 0 cols :=
        List.take_subset m _ hmem
      obtain ⟨i, c, he⟩ := headerCells_mem cols 0 _ h1
      injection he with h2 h3 h4 h5
      exact ⟨h2, h5⟩
    · intro ro co v sty hmem
      exact absurd hmem (List.not_mem_nil _)
    · intro _ j hj1 hj2
      rw [hred] at hj2
      rw [show (RunResult.mk k s).rowsWritten = s.rowIdx - 1 from rfl, hri] at hj2
      simp [initState] at hj2
      omega
  | cont st =>
    have hred : export_pipeline g sf bs cur cols =
        writeLoop g sf bs cur.fetchFail cur.rows 0 st := by
      unfold export_pipeline
      rw [hh]
    obtain ⟨hri, htr, hsl, hrev⟩ :=
      (write_excel_headers_spec sf cols 0 initState).1 st hh
    have hspec := writeLoop_spec g sf bs cur.fetchFail cur.rows 0 st
      (by rw [htr, hri]; simp [initState])
    obtain ⟨hlo2, newEvs, hext, hOK⟩ :=
      writeLoop_revExt g sf bs cur.fetchFail cur.rows 0 st
    refine ⟨?_, ⟨headerCells 0 cols ++ [Ev.rowHeight 0 20], newEvs.reverse,
      ?_, Or.inl rfl, ?_, ?_⟩, ?_⟩
    · rw [hred]
      show (writeLoop g sf bs cur.fetchFail cur.rows 0 st).final.rowIdx - 1 ≤ _
      have h2 := hspec.2.1
      rw [hri] at h2
      simp only [initState] at h2
      omega
    · rw [hred]
      show (writeLoop g sf bs cur.fetchFail cur.rows 0 st).final.rev.reverse = _
      rw [hext, hrev]
      simp [initState]
    · intro ro co v sty hmem
      rw [List.mem_append] at hmem
      rcases hmem with h1 | h1
      · obtain ⟨i, c, he⟩ := headerCells_mem cols 0 _ h1
        injection he with h2 h3 h4 h5
        exact ⟨h2, h5⟩
      · rw [List.mem_singleton] at h1
        exact nomatch h1
    · intro ro co v sty hmem
      have h1 : Ev.cell ro co v sty ∈ newEvs := List.mem_reverse.mp hmem
      rcases hOK _ h1 with h2 | ⟨w, a, h2⟩ | h2
      · simp only [newEvOK, Bool.and_eq_true, decide_eq_true_eq,
          beq_iff_eq] at h2
        constructor
        · have h3 := h2.1.2
          rw [hri] at h3
          simpa [initState] using h3
        · rw [h2.1.1]
          exact styleFor_ne_header co v
      · exact nomatch h2
      · exact nomatch h2
    · intro hne j hj1 hj2
      rw [hred] at hj2 ⊢
      rw [show (writeLoop g sf bs cur.fetchFail cur.rows 0 st).events =
        (writeLoop g sf bs cur.fetchFail cur.rows 0 st).final.rev.reverse
        from rfl, hasCellAt_iff]
      have hinit : ∀ i, 1 ≤ i → i ≤ st.rowIdx - 1 →
          ∃ co v sty, Ev.cell i co v sty ∈ st.rev := by
        intro i h1 h2
        rw [hri] at h2
        simp [initState] at h2
        omega
      obtain ⟨co, v, sty, hm⟩ :=
        (writeLoop_coverage g sf bs cur.fetchFail cur.rows 0 st).2 hne hinit
          j hj1 hj2
      exact ⟨co, v, sty, List.mem_reverse.mpr hm⟩

/-- C4 (witness): in a concrete run (two columns, one data row), row 1
received a cell. -/
theorem C4_header_and_rows_witness :
    hasCellAt (export_pipeline (fun _ => false) none 2 ⟨[[.vInt 7]], none⟩
      ["A", "B"]).events 1 = true :=
  (C4_header_and_rows (fun _ => false) none 2 ⟨[[.vInt 7]], none⟩
      ["A", "B"]).2.2 (by decide) 1 (by decide) (by decide)

end DBExportHub
